import Mathlib

/-!
Verification of the tcell terminfo screen (tscreen.go): a shallow embedding of
the input parser, the clipboard operations, and the cell renderer, with
theorems about the behaviours stated in the specification.

Bytes are modelled as natural numbers (0..255), Go byte strings as lists of
naturals, and Go ints as Lean integers where negative values can occur.
-/

set_option maxRecDepth 40000

namespace Tcell

/-! ## Byte-string helpers -/

/-- CR → LF normalisation of a single byte (Go strings.Replace of r with n). -/
def crlf (c : Nat) : Nat := if c = 13 then 10 else c

/-- Index of the first occurrence of pat inside s (Go strings.Index), none if
pat does not occur. -/
def indexOfSub (pat : List Nat) (s : List Nat) : Option Nat :=
  if pat.isPrefixOf s then some 0
  else
    match s with
    | [] => none
    | _ :: t => (indexOfSub pat t).map (· + 1)

/-- Magic byte strings for bracketed paste (tscreen.go constants). -/
def pasteBeginB : List Nat := [27, 91, 50, 48, 48, 126]

/-- End marker of a bracketed paste. -/
def pasteEndB : List Nat := [27, 91, 50, 48, 49, 126]

/-- Start of an OSC-52 clipboard sequence, ESC ] 5 2 ; . -/
def oscBeginB : List Nat := [27, 93, 53, 50, 59]

/-- End of an OSC-52 clipboard sequence, ESC backslash. -/
def oscEndB : List Nat := [27, 92]

/-! ## Base64 (external library encoding/base64, standard alphabet) -/

/-- Standard base64 alphabet: sextet value to ASCII byte. -/
def b64char (v : Nat) : Nat :=
  if v < 26 then 65 + v
  else if v < 52 then 97 + (v - 26)
  else if v < 62 then 48 + (v - 52)
  else if v = 62 then 43 else 47

/-- base64.StdEncoding.EncodeToString on a byte list. -/
def b64encode : List Nat → List Nat
  | a :: b :: c :: rest =>
      b64char (a / 4) :: b64char (a % 4 * 16 + b / 16) ::
        b64char (b % 16 * 4 + c / 64) :: b64char (c % 64) :: b64encode rest
  | [a, b] => [b64char (a / 4), b64char (a % 4 * 16 + b / 16), b64char (b % 16 * 4), 61]
  | [a] => [b64char (a / 4), b64char (a % 4 * 16), 61, 61]
  | [] => []

/-- ASCII byte to sextet value, none for a byte outside the alphabet. -/
def b64val (c : Nat) : Option Nat :=
  if 65 ≤ c ∧ c ≤ 90 then some (c - 65)
  else if 97 ≤ c ∧ c ≤ 122 then some (c - 97 + 26)
  else if 48 ≤ c ∧ c ≤ 57 then some (c - 48 + 52)
  else if c = 43 then some 62
  else if c = 47 then some 63
  else none

/-- base64.StdEncoding.Decode: none models a decode error (the code then
discards the paste). Padding 61 is the byte of the equals sign. -/
def b64decode : List Nat → Option (List Nat)
  | [] => some []
  | c1 :: c2 :: c3 :: c4 :: rest => do
      let v1 ← b64val c1
      let v2 ← b64val c2
      if c3 = 61 then
        if c4 = 61 ∧ rest = [] then some [v1 * 4 + v2 / 16] else none
      else do
        let v3 ← b64val c3
        if c4 = 61 then
          if rest = [] then some [v1 * 4 + v2 / 16, v2 % 16 * 16 + v3 / 4] else none
        else do
          let v4 ← b64val c4
          let tl ← b64decode rest
          some ((v1 * 4 + v2 / 16) :: (v2 % 16 * 16 + v3 / 4) :: (v3 % 4 * 64 + v4) :: tl)
  | _ => none

/-! ## Keys, modifiers, buttons, events

Modelled from the spec: key codes are an integer enumeration (key.go is not
part of the given source).  Control keys 0x00..0x1F use their byte value (the
source switches on KeyBS, KeyTAB, KeyESC, KeyCR when registering control
bytes); named keys are given values from 256 up. -/

def keyRune : Nat := 256
def keyUp : Nat := 257
def keyDown : Nat := 258
def keyRight : Nat := 259
def keyLeft : Nat := 260
def keyHome : Nat := 261
def keyEnd : Nat := 262
def keyPgUp : Nat := 263
def keyPgDn : Nat := 264
def keyDelete : Nat := 265
def keyInsert : Nat := 266
def keyEsc : Nat := 27

/-- Modifier bit masks, modelled from the spec set {Shift, Ctrl, Alt, Meta}. -/
def modNone : Nat := 0
def modShift : Nat := 1
def modCtrl : Nat := 2
def modAlt : Nat := 4
def modMeta : Nat := 8

/-- Mouse buttons (mask.go is not part of the given source; the parser only
ever reports one of these values). -/
inductive MouseButton where
  | none
  | button1
  | button2
  | button3
  | wheelUp
  | wheelDown
deriving DecidableEq, Repr

/-- Input events delivered by the parser.  raw preserves the bytes that
produced the event. -/
inductive Event where
  | key (k : Nat) (r : Nat) (mod : Nat) (raw : List Nat)
  | mouse (x y : Int) (btn : MouseButton) (mod : Nat) (raw : List Nat)
  | paste (text : List Nat) (raw : List Nat)
  | evRaw (bytes : List Nat)
deriving DecidableEq, Repr

/-! ## Parser state and environment -/

/-- Result of one call of the external charset decoder inside parseRune:
more covers transform.ErrShortSrc and the no-output case (the loop tries a
longer input slice); decoded r nin covers a transform with output, where r is
the codepoint utf8.DecodeRune yields (none for RuneError) and nin the number
of source bytes consumed. -/
inductive DecRes where
  | more
  | decoded (r : Option Nat) (nin : Nat)

/-- The mutable parser fields of tScreen. -/
structure PState where
  escaped : Bool
  wasbtn : Bool
  buttondn : Bool
  escbuf : List Nat
deriving DecidableEq, Repr

/-- The read-only screen fields the parser consults: paste mode, whether the
terminfo record claims mouse support (ti.Mouse nonempty), the cell-buffer
size used by clip, the key table, registered raw sequences, and the external
charset decoder. -/
structure PEnv where
  paste : Bool
  hasMouse : Bool
  w : Nat
  h : Nat
  keycodes : List (List Nat × Nat × Nat)
  rawseq : List (List Nat)
  decodeStep : List Nat → DecRes

/-- Result of one sub-parser: done means complete (bytes consumed, events
appended); more means a longer input might match; nope means no match. -/
inductive PR where
  | done (s : PState) (buf : List Nat) (evs : List Event)
  | more
  | nope

def PR.isMore : PR → Bool
  | .more => true
  | _ => false

/-! ## Go two's-complement bit arithmetic on int -/

/-- Bit k of a Go int in two's complement, read off the Euclidean remainder. -/
def ibit (n : Int) (k : Nat) : Bool := decide (2 ^ k ≤ n.emod (2 ^ (k + 1)))

/-- Go n &^ (1 shifted k): clear bit k. -/
def clearBit (n : Int) (k : Nat) : Int := if ibit n k then n - 2 ^ k else n

/-- Go n | 3: set bits 0 and 1. -/
def setLow2 (n : Int) : Int :=
  (if ibit n 0 then n else n + 1) + (if ibit n 1 then 0 else 2)

/-- Go btn & 0x43: keep bits 0, 1 and 6, as a natural number. -/
def btnMask43 (btn : Int) : Nat :=
  (if ibit btn 0 then 1 else 0) + (if ibit btn 1 then 2 else 0) +
    (if ibit btn 6 then 64 else 0)

/-! ## Mouse event construction -/

/-- tScreen.clip: clamp reported coordinates to the screen rectangle. -/
def clip (env : PEnv) (x y : Int) : Int × Int :=
  let x := if x < 0 then 0 else x
  let y := if y < 0 then 0 else y
  let x := if x > (env.w : Int) - 1 then (env.w : Int) - 1 else x
  let y := if y > (env.h : Int) - 1 then (env.h : Int) - 1 else y
  (x, y)

/-- tScreen.buildMouseEvent: decode the button/modifier bits, update the
wheel-debounce flag, clip the coordinates, and take the accumulated escape
bytes as the raw field (resetting them). -/
def buildMouseEvent (env : PEnv) (s : PState) (x y btn : Int) : PState × Event :=
  let bw : MouseButton × Bool :=
    match btnMask43 btn with
    | 0 => (.button1, true)
    | 1 => (.button3, true)
    | 2 => (.button2, true)
    | 3 => (.none, false)
    | 64 => (if !s.wasbtn then .wheelUp else .button1, s.wasbtn)
    | 65 => (if !s.wasbtn then .wheelDown else .button1, s.wasbtn)
    | _ => (.none, s.wasbtn)
  let mod := (if ibit btn 2 then modShift else 0) + (if ibit btn 3 then modAlt else 0) +
    (if ibit btn 4 then modCtrl else 0)
  let p := clip env x y
  ({ s with wasbtn := bw.2, escbuf := [] }, Event.mouse p.1 p.2 bw.1 mod s.escbuf)

/-! ## X10 mouse sub-parser -/

/-- Loop result for the two mouse sub-parsers before the event is built. -/
inductive MRes where
  | done (consumed : Nat) (x y btn : Int) (buttondn : Bool)
  | more
  | nope

/-- The state machine of parseXtermMouse: ESC [ M then three raw bytes.
pos counts the bytes looked at so far; on completion pos+1 bytes are
consumed.  The button byte is taken raw; x and y are de-biased by 32+1. -/
def xtermLoop : Nat → Int → Int → Int → Nat → List Nat → MRes
  | _, _, _, _, _, [] => .more
  | state, btn, x, y, pos, c :: rest =>
    match state with
    | 0 =>
        if c = 27 then xtermLoop 1 btn x y (pos + 1) rest
        else if c = 155 then xtermLoop 2 btn x y (pos + 1) rest
        else .nope
    | 1 => if c = 91 then xtermLoop 2 btn x y (pos + 1) rest else .nope
    | 2 => if c = 77 then xtermLoop 3 btn x y (pos + 1) rest else .nope
    | 3 => xtermLoop 4 (c : Int) x y (pos + 1) rest
    | 4 => xtermLoop 5 btn ((c : Int) - 32 - 1) y (pos + 1) rest
    | _ => .done (pos + 1) x ((c : Int) - 32 - 1) btn false

/-- tScreen.parseXtermMouse: legacy X11 mouse record.  The consumed bytes are
moved into escbuf and the event is built from (x, y, btn). -/
def parseXtermMouse (env : PEnv) (s : PState) (buf : List Nat) : PR :=
  match xtermLoop (if s.escaped then 1 else 0) 0 0 0 0 buf with
  | .done n x y btn _ =>
      let s1 := { s with escbuf := s.escbuf ++ buf.take n }
      let r := buildMouseEvent env s1 x y btn
      .done r.1 (buf.drop n) [r.2]
  | .more => .more
  | .nope => .nope

/-! ## SGR mouse sub-parser -/

/-- The state machine of parseSgrMouse: ESC [ < btn ; x ; y (M or m) with
signed decimal parameters.  Bytes that match no case are skipped.  On the
terminator: m clears all buttons (btn | 3, wheel bit cleared) and resets the
button-down flag; a motion report with no button-down seen is rewritten the
same way; otherwise the button-down flag is set. -/
def sgrLoop (buttondn : Bool) :
    Nat → Int → Int → Int → Int → Bool → Bool → Nat → List Nat → MRes
  | _, _, _, _, _, _, _, _, [] => .more
  | state, val, btn, x, y, dig, neg, pos, c :: rest =>
    if c = 27 then
      if state ≠ 0 then .nope
      else sgrLoop buttondn 1 val btn x y dig neg (pos + 1) rest
    else if c = 155 then
      if state ≠ 0 then .nope
      else sgrLoop buttondn 2 val btn x y dig neg (pos + 1) rest
    else if c = 91 then
      if state ≠ 1 then .nope
      else sgrLoop buttondn 2 val btn x y dig neg (pos + 1) rest
    else if c = 60 then
      if state ≠ 2 then .nope
      else sgrLoop buttondn 3 0 btn x y false false (pos + 1) rest
    else if c = 45 then
      if state ≠ 3 ∧ state ≠ 4 ∧ state ≠ 5 then .nope
      else if dig ∨ neg then .nope
      else sgrLoop buttondn state val btn x y dig true (pos + 1) rest
    else if 48 ≤ c ∧ c ≤ 57 then
      if state ≠ 3 ∧ state ≠ 4 ∧ state ≠ 5 then .nope
      else sgrLoop buttondn state (val * 10 + ((c : Int) - 48)) btn x y true neg (pos + 1) rest
    else if c = 59 then
      let v := if neg then -val else val
      if state = 3 then sgrLoop buttondn 4 0 v x y false false (pos + 1) rest
      else if state = 4 then sgrLoop buttondn 5 0 btn (v - 1) y false false (pos + 1) rest
      else .nope
    else if c = 109 ∨ c = 77 then
      if state ≠ 5 then .nope
      else
        let v := if neg then -val else val
        let yv := v - 1
        let motion := ibit btn 5
        let btn1 := clearBit btn 5
        if c = 109 then .done (pos + 1) x yv (clearBit (setLow2 btn1) 6) false
        else if motion then
          if !buttondn then .done (pos + 1) x yv (clearBit (setLow2 btn1) 6) buttondn
          else .done (pos + 1) x yv btn1 buttondn
        else .done (pos + 1) x yv btn1 true
    else sgrLoop buttondn state val btn x y dig neg (pos + 1) rest

/-- tScreen.parseSgrMouse: SGR mouse record.  The consumed bytes are moved
into escbuf, the button-down flag is stored back, and the event is built. -/
def parseSgrMouse (env : PEnv) (s : PState) (buf : List Nat) : PR :=
  match sgrLoop s.buttondn (if s.escaped then 1 else 0) 0 0 0 0 false false 0 buf with
  | .done n x y btn bdn =>
      let s1 := { s with buttondn := bdn, escbuf := s.escbuf ++ buf.take n }
      let r := buildMouseEvent env s1 x y btn
      .done r.1 (buf.drop n) [r.2]
  | .more => .more
  | .nope => .nope

/-! ## Function-key sub-parser -/

/-- tScreen.parseFunctionKey: longest registered sequence matching a full
buffer prefix wins (the single-byte ESC entry is skipped); reports a possible
longer match when the buffer is a proper prefix of a registered sequence.
Go iterates its map in unspecified order; the model iterates the list in
order, which agrees with the source whenever at most one entry matches. -/
def parseFunctionKey (env : PEnv) (s : PState) (buf : List Nat) : PR :=
  match env.keycodes.find? (fun kc => !(kc.1 == [27]) && kc.1.isPrefixOf buf) with
  | some kc =>
      let r := if kc.1.length = 1 then buf.headD 0 else 0
      let mod1 := if s.escaped then kc.2.2 ||| modAlt else kc.2.2
      let escbuf1 := s.escbuf ++ buf.take kc.1.length
      .done { s with escaped := false, escbuf := [] } (buf.drop kc.1.length)
        [Event.key kc.2.1 r mod1 escbuf1]
  | none =>
      if env.keycodes.any (fun kc => !(kc.1 == [27]) && buf.isPrefixOf kc.1) then .more
      else .nope

/-! ## Rune sub-parser -/

/-- The decoder loop of parseRune: try ever longer slices of the buffer until
the external decoder produces output or the buffer is exhausted. -/
def runeScan (env : PEnv) (b : List Nat) (l : Nat) : Option (Option Nat × Nat) :=
  if b.length < l then none
  else
    match env.decodeStep (b.take l) with
    | .more => runeScan env b (l + 1)
    | .decoded r nin => some (r, nin)
termination_by b.length + 1 - l
decreasing_by
  simp_wf
  omega

/-- tScreen.parseRune.  Printable ASCII completes at once; bytes below 0x20
are control bytes (no match); higher bytes go through the external decoder.
In the decoder path the event raw field is the escape buffer before the rune
bytes are consumed, and a RuneError consumes the bytes without an event. -/
def parseRune (env : PEnv) (s : PState) (buf : List Nat) : PR :=
  match buf with
  | [] => .nope
  | b0 :: _ =>
    if 32 ≤ b0 ∧ b0 ≤ 127 then
      let mod := if s.escaped then modAlt else modNone
      let escbuf1 := s.escbuf ++ [b0]
      .done { s with escaped := false, escbuf := [] } (buf.drop 1)
        [Event.key keyRune b0 mod escbuf1]
    else if b0 < 128 then .nope
    else
      match runeScan env buf 1 with
      | none => .more
      | some (some rv, nin) =>
          let mod := if s.escaped then modAlt else modNone
          .done { s with escaped := false, escbuf := buf.take nin } (buf.drop nin)
            [Event.key keyRune rv mod s.escbuf]
      | some (none, nin) =>
          .done { s with escbuf := s.escbuf ++ buf.take nin } (buf.drop nin) []

/-! ## Paste sub-parsers -/

/-- The run of bytes before the first ESC (Go bytes.IndexByte slicing). -/
def takeNonEsc (b : List Nat) : List Nat := b.takeWhile (fun c => !(c == 27))

/-- tScreen.parsePaste: with paste mode on, a run of at least two non-ESC
bytes is delivered as one Paste event with CR → LF normalisation. -/
def parsePaste (s : PState) (buf : List Nat) : Option (PState × List Nat × Event) :=
  match buf with
  | [] => none
  | b0 :: _ =>
    if b0 = 27 then none
    else
      let b := takeNonEsc buf
      if 1 < b.length then
        some ({ s with escbuf := [] }, buf.drop b.length,
          Event.paste (b.map crlf) (s.escbuf ++ b))
      else none

/-- tScreen.parseOSC52Paste: ESC ] 5 2 ; register ; payload ESC backslash.
The whole buffer (not just the consumed bytes) is written to escbuf; a
base64 decode error consumes the sequence without emitting an event and
without resetting escbuf. -/
def parseOSC52Paste (s : PState) (buf : List Nat) : PR :=
  if oscBeginB.isPrefixOf buf || buf.isPrefixOf oscBeginB then
    match indexOfSub oscEndB buf with
    | some idx =>
        if 7 ≤ idx then
          let payload := (buf.take idx).drop 7
          let escbuf1 := s.escbuf ++ buf
          let rest := buf.drop (idx + 2)
          match b64decode payload with
          | none => .done { s with escbuf := escbuf1 } rest []
          | some data => .done { s with escbuf := [] } rest [Event.paste data escbuf1]
        else .more
    | none => .more
  else .nope

/-- tScreen.parseBracketedPaste: CR bytes are rewritten to LF in the whole
buffer before matching; the text between the begin and end markers is emitted
as one Paste event, the original bytes (CR intact) land in the raw field. -/
def parseBracketedPaste (s : PState) (buf : List Nat) : PR :=
  let str := buf.map crlf
  if pasteBeginB.isPrefixOf str || str.isPrefixOf pasteBeginB then
    match indexOfSub pasteEndB str with
    | some idx =>
        if 6 ≤ idx then
          .done { s with escbuf := [] } (buf.drop (idx + 6))
            [Event.paste ((str.take idx).drop 6) (s.escbuf ++ buf.take (idx + 6))]
        else .more
    | none => .more
  else .nope

/-! ## The scan loop -/

/-- tScreen.collectEventsFromInput: poll the sub-parsers in their fixed order
until one completes or all abstain; when none is even a possible longer match
(or the quiet timer expired), run the catch-all: registered raw sequences,
the lone-ESC resolution, the escaped flag for ESC with follow-up, or a Raw
event for a single unmatched byte.  fuel bounds the iteration count (every
productive step consumes input). -/
def collectLoop (env : PEnv) (expire : Bool) :
    Nat → PState → List Nat → List Event → List Event × PState × List Nat
  | 0, s, buf, acc => (acc, s, buf)
  | fuel + 1, s, buf, acc =>
    match buf with
    | [] => (acc, s, [])
    | b0 :: _ =>
      match (if env.paste then parsePaste s buf else none) with
      | some r => collectLoop env expire fuel r.1 r.2.1 (acc ++ [r.2.2])
      | none =>
        match parseOSC52Paste s buf with
        | .done s1 buf1 evs => collectLoop env expire fuel s1 buf1 (acc ++ evs)
        | r1 =>
          match parseBracketedPaste s buf with
          | .done s1 buf1 evs => collectLoop env expire fuel s1 buf1 (acc ++ evs)
          | r2 =>
            match parseRune env s buf with
            | .done s1 buf1 evs => collectLoop env expire fuel s1 buf1 (acc ++ evs)
            | r3 =>
              match parseFunctionKey env s buf with
              | .done s1 buf1 evs => collectLoop env expire fuel s1 buf1 (acc ++ evs)
              | r4 =>
                match (if env.hasMouse then parseXtermMouse env s buf else .nope) with
                | .done s1 buf1 evs => collectLoop env expire fuel s1 buf1 (acc ++ evs)
                | r5 =>
                  match (if env.hasMouse then parseSgrMouse env s buf else .nope) with
                  | .done s1 buf1 evs => collectLoop env expire fuel s1 buf1 (acc ++ evs)
                  | r6 =>
                    let nPart := [r1, r2, r3, r4, r5, r6].countP PR.isMore
                    if nPart == 0 || expire then
                      if b0 = 27 then
                        match env.rawseq.find? (fun r => r.isPrefixOf buf) with
                        | some r =>
                            collectLoop env expire fuel { s with escbuf := [] }
                              (buf.drop r.length) (acc ++ [Event.evRaw r])
                        | none =>
                            if buf.length = 1 then
                              collectLoop env expire fuel
                                { s with escaped := false, escbuf := [27] } []
                                (acc ++ [Event.key keyEsc 0 modNone [27]])
                            else
                              collectLoop env expire fuel
                                { s with escaped := true, escbuf := s.escbuf ++ [27] }
                                (buf.drop 1) acc
                      else
                        collectLoop env expire fuel { s with escbuf := [] } (buf.drop 1)
                          (acc ++ [Event.evRaw (s.escbuf ++ [b0])])
                    else (acc, s, buf)

/-- One scan pass over the input buffer (the body of scanInput): returns the
collected events, the final parser state, and the remaining buffer. -/
def collectEvents (env : PEnv) (s : PState) (buf : List Nat) (expire : Bool) :
    List Event × PState × List Nat :=
  collectLoop env expire (buf.length + 1) s buf []

/-! ## The key table

prepareKeyMod and the table construction of prepareKeys, over an association
list keyed by the escape-sequence bytes. -/

/-- Look a sequence up in the key table. -/
def lookupSeq (m : List (List Nat × Nat × Nat)) (val : List Nat) : Option (Nat × Nat) :=
  (m.find? (fun kc => kc.1 == val)).map (fun kc => kc.2)

/-- tScreen.prepareKeyMod: insert seq → (key, mod) if seq is nonempty and
absent. -/
def prepareKeyMod (m : List (List Nat × Nat × Nat)) (key mod : Nat) (val : List Nat) :
    List (List Nat × Nat × Nat) :=
  if val ≠ [] ∧ lookupSeq m val = none then m ++ [(val, key, mod)] else m

/-- tScreen.prepareKeyModReplace: insert as prepareKeyMod, or overwrite when
the present entry has the named replace key. -/
def prepareKeyModReplace (m : List (List Nat × Nat × Nat)) (key replace mod : Nat)
    (val : List Nat) : List (List Nat × Nat × Nat) :=
  if val = [] then m
  else
    match lookupSeq m val with
    | none => m ++ [(val, key, mod)]
    | some old =>
        if old.1 = replace then
          m.map (fun kc => if kc.1 == val then (val, key, mod) else kc)
        else m

/-- The sequences prepareKeys hard-codes when the capability record has the
application keypad (cursor mode and application mode), in source order. -/
def cursorKeySeqs : List (Nat × List Nat) :=
  [(keyUp, [27, 91, 65]), (keyDown, [27, 91, 66]), (keyRight, [27, 91, 67]),
   (keyLeft, [27, 91, 68]), (keyEnd, [27, 91, 70]), (keyHome, [27, 91, 72]),
   (keyDelete, [27, 91, 51, 126]), (keyHome, [27, 91, 49, 126]), (keyEnd, [27, 91, 52, 126]),
   (keyPgUp, [27, 91, 53, 126]), (keyPgDn, [27, 91, 54, 126]),
   (keyUp, [27, 79, 65]), (keyDown, [27, 79, 66]), (keyRight, [27, 79, 67]),
   (keyLeft, [27, 79, 68]), (keyHome, [27, 79, 72])]

/-- The control-byte loop at the end of prepareKeys: register each byte
0x00..0x1F whose value starts no already-registered sequence, with ModCtrl
except for the directly typeable BS, TAB, ESC, CR. -/
def addCtrlKeys (m : List (List Nat × Nat × Nat)) : List (List Nat × Nat × Nat) :=
  (List.range 32).foldl
    (fun m i =>
      if m.any (fun kc => kc.1.headD 999 == i) then m
      else m ++ [([i], i, if i = 8 ∨ i = 9 ∨ i = 27 ∨ i = 13 then modNone else modCtrl)])
    m

/-- The key table prepareKeys builds for a capability record whose named key
capabilities are empty and whose EnterKeypad capability is present (so only
the hard-coded cursor and application mode sequences and the control bytes
are registered); the representative table used by the theorems below. -/
def stdKeycodes : List (List Nat × Nat × Nat) :=
  addCtrlKeys (cursorKeySeqs.foldl (fun m kv => prepareKeyMod m kv.1 modNone kv.2) [])

/-- Modelled from the spec: the external charset decoder for the UTF-8
charset at the parseRune call boundary (the transcoder is outside the core).
Incomplete but so-far-valid multibyte prefixes report more; an invalid byte
decodes to RuneError (none) consuming one byte. -/
def utf8Step : List Nat → DecRes
  | [] => .more
  | c :: rest =>
    if c < 128 then .decoded (some c) 1
    else if 194 ≤ c ∧ c ≤ 223 then
      match rest with
      | [] => .more
      | c2 :: _ =>
          if 128 ≤ c2 ∧ c2 ≤ 191 then .decoded (some ((c - 192) * 64 + (c2 - 128))) 2
          else .decoded none 1
    else if 224 ≤ c ∧ c ≤ 239 then
      match rest with
      | [] => .more
      | [c2] => if 128 ≤ c2 ∧ c2 ≤ 191 then .more else .decoded none 1
      | c2 :: c3 :: _ =>
          if 128 ≤ c2 ∧ c2 ≤ 191 ∧ 128 ≤ c3 ∧ c3 ≤ 191 then
            .decoded (some ((c - 224) * 4096 + (c2 - 128) * 64 + (c3 - 128))) 3
          else .decoded none 1
    else if 240 ≤ c ∧ c ≤ 244 then
      match rest with
      | [] => .more
      | [c2] => if 128 ≤ c2 ∧ c2 ≤ 191 then .more else .decoded none 1
      | [c2, c3] =>
          if 128 ≤ c2 ∧ c2 ≤ 191 ∧ 128 ≤ c3 ∧ c3 ≤ 191 then .more else .decoded none 1
      | c2 :: c3 :: c4 :: _ =>
          if 128 ≤ c2 ∧ c2 ≤ 191 ∧ 128 ≤ c3 ∧ c3 ≤ 191 ∧ 128 ≤ c4 ∧ c4 ≤ 191 then
            .decoded (some ((c - 240) * 262144 + (c2 - 128) * 4096 + (c3 - 128) * 64 +
              (c4 - 128))) 4
          else .decoded none 1
    else .decoded none 1

/-- The parser environment of a freshly initialised screen of the given size:
paste mode off, mouse support present, the representative key table, no
registered raw sequences, UTF-8 charset. -/
def stdEnvWH (w h : Nat) : PEnv :=
  { paste := false, hasMouse := true, w := w, h := h,
    keycodes := stdKeycodes, rawseq := [], decodeStep := utf8Step }

/-- The standard environment at a fixed 80 × 24 size. -/
def stdEnv : PEnv := stdEnvWH 80 24

/-- The parser state of a freshly initialised screen. -/
def freshPState : PState :=
  { escaped := false, wasbtn := false, buttondn := false, escbuf := [] }

/-- The OSC-52 set sequence: fmt.Sprintf of pasteSet with the register byte
and the base64 payload, ESC ] 5 2 ; r ; payload ESC backslash. -/
def pasteSetSeq (r : Nat) (payload : List Nat) : List Nat :=
  oscBeginB ++ [r, 59] ++ payload ++ oscEndB

/-! ## Styles, colours, cells

The colour, style and cell-buffer types live in source files that are not
part of the repository snapshot; they are modelled from the spec. -/

/-- Modelled from the spec: a colour is Default, Reset, a palette index, or a
truecolour RGB triple (color.go is not part of the given source). -/
inductive Color where
  | default
  | reset
  | palette (n : Nat)
  | rgb (r g b : Nat)
deriving DecidableEq, Repr

/-- Color.IsRGB. -/
def Color.isRGB : Color → Bool
  | .rgb _ _ _ => true
  | _ => false

/-- Color.Valid: palette and RGB colours carry the valid flag. -/
def Color.valid : Color → Bool
  | .palette _ => true
  | .rgb _ _ _ => true
  | _ => false

/-- The low byte used by the palette emission, int(c & 0xff). -/
def Color.low : Color → Nat
  | .palette n => n % 256
  | .rgb _ _ b => b % 256
  | _ => 0

/-- Modelled from the spec: a style is (fg, bg, attribute bitset)
(style.go is not part of the given source). -/
structure Style where
  fg : Color
  bg : Color
  attrs : Nat
deriving DecidableEq, Repr

def styleDefault : Style := { fg := .default, bg := .default, attrs := 0 }

/-- Attribute bits in declaration order Bold, Blink, Reverse, Underline,
Dim, Italic, StrikeThrough; attrInvalid marks the sentinel style. -/
def attrBold : Nat := 1
def attrBlink : Nat := 2
def attrReverse : Nat := 4
def attrUnderline : Nat := 8
def attrDim : Nat := 16
def attrItalic : Nat := 32
def attrStrikeThrough : Nat := 64
def attrInvalid : Nat := 128

/-- The sentinel style assigned by finish to force attribute re-emission. -/
def styleInvalid : Style := { fg := .default, bg := .default, attrs := attrInvalid }

/-- Modelled from the spec: a cell holds the main codepoint, combining
codepoints, style, the derived width and a dirty flag (cellbuffer.go is not
part of the given source). -/
structure Cell where
  mainc : Nat
  combc : List Nat
  style : Style
  width : Nat
  dirty : Bool
deriving DecidableEq, Repr

def blankCell : Cell :=
  { mainc := 32, combc := [], style := styleDefault, width := 1, dirty := true }

/-- Modelled from the spec: the dense W × H cell grid, row major. -/
structure CellBuf where
  w : Nat
  h : Nat
  cells : List Cell
deriving DecidableEq, Repr

/-- GetContent; out-of-range reads yield a blank of width 1. -/
def CellBuf.getContent (cb : CellBuf) (x y : Nat) : Nat × List Nat × Style × Nat :=
  if x < cb.w ∧ y < cb.h then
    match cb.cells.get? (y * cb.w + x) with
    | some c => (c.mainc, c.combc, c.style, c.width)
    | none => (32, [], styleDefault, 1)
  else (32, [], styleDefault, 1)

/-- Dirty(x, y). -/
def CellBuf.dirty (cb : CellBuf) (x y : Nat) : Bool :=
  if x < cb.w ∧ y < cb.h then
    match cb.cells.get? (y * cb.w + x) with
    | some c => c.dirty
    | none => false
  else false

/-- Apply f to the cell at (x, y) when in range. -/
def CellBuf.modifyCell (cb : CellBuf) (x y : Nat) (f : Cell → Cell) : CellBuf :=
  if x < cb.w ∧ y < cb.h then
    match cb.cells.get? (y * cb.w + x) with
    | some c => { cb with cells := cb.cells.set (y * cb.w + x) (f c) }
    | none => cb
  else cb

/-- SetDirty(x, y, d). -/
def CellBuf.setDirty (cb : CellBuf) (x y : Nat) (d : Bool) : CellBuf :=
  cb.modifyCell x y (fun c => { c with dirty := d })

/-- Modelled from the spec: SetContent clamps silently out of range, marks
the cell dirty when content or style changed, and also dirties the shadowed
cell to the right of a width-2 write.  The width of the main rune is supplied
by the caller (the east-asian width classifier is external). -/
def CellBuf.setContent (cb : CellBuf) (x y : Nat) (mainc : Nat) (combc : List Nat)
    (st : Style) (width : Nat) : CellBuf :=
  if x < cb.w ∧ y < cb.h then
    let cb1 := cb.modifyCell x y (fun c =>
      if c.mainc = mainc ∧ c.combc = combc ∧ c.style = st then c
      else { mainc := mainc, combc := combc, style := st, width := width, dirty := true })
    if width = 2 then cb1.setDirty (x + 1) y true else cb1
  else cb

/-- Fill(r, style). -/
def CellBuf.fill (cb : CellBuf) (r : Nat) (st : Style) : CellBuf :=
  { cb with cells := cb.cells.map (fun _ =>
      { mainc := r, combc := [], style := st, width := 1, dirty := true }) }

/-- Invalidate: every dirty flag on. -/
def CellBuf.invalidate (cb : CellBuf) : CellBuf :=
  { cb with cells := cb.cells.map (fun c => { c with dirty := true }) }

/-- Modelled from the spec: Resize preserves the overlap region, new cells
are blank and dirty. -/
def CellBuf.resize (cb : CellBuf) (w h : Nat) : CellBuf :=
  { w := w, h := h,
    cells := (List.range (w * h)).map (fun i =>
      let x := i % w
      let y := i / w
      if x < cb.w ∧ y < cb.h then
        match cb.cells.get? (y * cb.w + x) with
        | some c => c
        | none => blankCell
      else blankCell) }

/-! ## The render environment and screen state -/

/-- The terminal capability record and external helpers the renderer
consumes: capability strings are opaque byte strings, parameterised
capabilities are byte-string-valued functions (the terminfo package is
external to the core).  encodeRuneExt models the external charset encoder at
the encodeRune boundary: some bytes on success, none when the transform
failed, produced nothing, or produced the substitution byte 0x1A.  runeWidth
models the east-asian width classification, findColor the nearest-palette
search. -/
structure REnv where
  tgoto : Nat → Nat → List Nat
  hideCursorCap : List Nat
  showCursorCap : List Nat
  attrOff : List Nat
  bold : List Nat
  underline : List Nat
  reverse : List Nat
  blink : List Nat
  dim : List Nat
  italic : List Nat
  strike : List Nat
  clearCap : List Nat
  colors : Nat
  resetFgBg : List Nat
  setFgBgRGB : Option (Nat → Nat → Nat → Nat → Nat → Nat → List Nat)
  setFgRGB : Option (Nat → Nat → Nat → List Nat)
  setBgRGB : Option (Nat → Nat → Nat → List Nat)
  setFgBg : Option (Nat → Nat → List Nat)
  setFg : Option (Nat → List Nat)
  setBg : Option (Nat → List Nat)
  encodeRuneExt : Nat → Option (List Nat)
  runeWidth : Nat → Nat
  findColor : Color → List Color → Color

/-- The tScreen fields the facade and renderer touch.  out is the emitted
byte stream (the internal buffering and single flush of draw are not split
out). -/
structure TS where
  fini : Bool
  w : Nat
  h : Nat
  cells : CellBuf
  style : Style
  curstyle : Style
  cx : Int
  cy : Int
  cursorx : Int
  cursory : Int
  paste : Bool
  clear : Bool
  truecolor : Bool
  fallback : List (Nat × List Nat)
  acs : List (Nat × List Nat)
  colorCache : List (Color × Color)
  palette : List Color
  out : List Nat
deriving DecidableEq, Repr

/-! ## Facade operations -/

/-- tScreen.SetPaste: not guarded by fini. -/
def setPaste (p : Bool) (s : TS) : TS := { s with paste := p }

/-- tScreen.ShowCursor: not guarded by fini. -/
def showCursorOp (x y : Int) (s : TS) : TS := { s with cursorx := x, cursory := y }

/-- tScreen.HideCursor = ShowCursor(-1, -1). -/
def hideCursorOp (s : TS) : TS := showCursorOp (-1) (-1) s

/-- tScreen.SetStyle: guarded by fini. -/
def setStyle (st : Style) (s : TS) : TS := if s.fini then s else { s with style := st }

/-- tScreen.Fill: guarded by fini. -/
def fill (r : Nat) (st : Style) (s : TS) : TS :=
  if s.fini then s else { s with cells := s.cells.fill r st }

/-- tScreen.Clear = Fill(space, style). -/
def clearOp (s : TS) : TS := fill 32 s.style s

/-- tScreen.SetContent: guarded by fini. -/
def setContent (env : REnv) (x y : Nat) (mainc : Nat) (combc : List Nat) (st : Style)
    (s : TS) : TS :=
  if s.fini then s
  else { s with cells := s.cells.setContent x y mainc combc st (env.runeWidth mainc) }

/-- tScreen.RegisterRuneFallback: not guarded by fini; replaces any previous
entry for the rune. -/
def registerRuneFallback (r : Nat) (fb : List Nat) (s : TS) : TS :=
  { s with fallback := (r, fb) :: s.fallback.filter (fun kv => !(kv.1 == r)) }

/-! ## Colour and glyph emission -/

/-- Association list lookup for the acs and fallback maps. -/
def alookup (m : List (Nat × List Nat)) (k : Nat) : Option (List Nat) :=
  (m.find? (fun kv => kv.1 == k)).map (fun kv => kv.2)

/-- Colour cache lookup. -/
def clookup (m : List (Color × Color)) (k : Color) : Option Color :=
  (m.find? (fun kv => decide (kv.1 = k))).map (fun kv => kv.2)

/-- tScreen.encodeRune: encode through the external encoder; on failure fall
back (only for the main rune, buf empty) to the ACS map, then a registered
rune fallback, then a question mark; combining characters that fail are
elided. -/
def encodeRune (env : REnv) (s : TS) (r : Nat) (buf : List Nat) : List Nat :=
  match env.encodeRuneExt r with
  | some nb => buf ++ nb
  | none =>
      if buf = [] then
        match alookup s.acs r with
        | some acsStr => buf ++ acsStr
        | none =>
            match alookup s.fallback r with
            | some fb => buf ++ fb
            | none => buf ++ [63]
      else buf

/-- The one-sided emission tail of sendFgBg. -/
def sendFgSingle (env : REnv) (s : TS) (fg bg : Color) : TS :=
  let s1 := match env.setFg with
    | some g => if fg.valid then { s with out := s.out ++ g fg.low } else s
    | none => s
  match env.setBg with
  | some g => if bg.valid then { s1 with out := s1.out ++ g bg.low } else s1
  | none => s1

/-- The one-sided RGB collapse of sendFgBg: when truecolour is on, the side
is RGB and the one-sided capability exists, emit it and collapse the side to
Default. -/
def collapseRGB (cap : Option (Nat → Nat → Nat → List Nat)) (tc : Bool) (s : TS)
    (c : Color) : TS × Color :=
  match (if tc then cap else none), c with
  | some f, .rgb r g b => ({ s with out := s.out ++ f r g b }, Color.default)
  | _, _ => (s, c)

/-- The palette resolution of one side of sendFgBg: cache hit, or the
external FindColor memoised into the cache. -/
def resolveColor (env : REnv) (s : TS) (c : Color) : TS × Color :=
  if c.valid then
    match clookup s.colorCache c with
    | some v => (s, v)
    | none =>
        let v := env.findColor c s.palette
        ({ s with colorCache := (c, v) :: s.colorCache }, v)
  else (s, c)

/-- tScreen.sendFgBg: reset handling, truecolour commands (the combined RGB
command returns early, one-sided RGB commands collapse that side to
Default), palette resolution through the memoised cache and the external
FindColor, then the combined or one-sided palette commands. -/
def sendFgBg (env : REnv) (s : TS) (fg0 bg0 : Color) : TS :=
  if env.colors = 0 then s
  else
    let s := if fg0 = .reset ∨ bg0 = .reset then { s with out := s.out ++ env.resetFgBg }
             else s
    match (if s.truecolor then env.setFgBgRGB else none), fg0, bg0 with
    | some f, .rgb r1 g1 b1, .rgb r2 g2 b2 => { s with out := s.out ++ f r1 g1 b1 r2 g2 b2 }
    | _, _, _ =>
        let p1 := collapseRGB env.setFgRGB s.truecolor s fg0
        let p2 := collapseRGB env.setBgRGB p1.1.truecolor p1.1 bg0
        let q1 := resolveColor env p2.1 p1.2
        let q2 := resolveColor env q1.1 p2.2
        match env.setFgBg with
        | some f =>
            if (q1.2).valid ∧ (q2.2).valid then
              { q2.1 with out := q2.1.out ++ f (q1.2).low (q2.2).low }
            else sendFgSingle env q2.1 q1.2 q2.2
        | none => sendFgSingle env q2.1 q1.2 q2.2

/-- The style transition of drawCell: AttrOff, colour commands, then each
attribute enter capability, remembering curstyle. -/
def emitStyle (env : REnv) (s : TS) (st : Style) : TS :=
  let s := { s with out := s.out ++ env.attrOff }
  let s := sendFgBg env s st.fg st.bg
  let s := if st.attrs &&& attrBold ≠ 0 then { s with out := s.out ++ env.bold } else s
  let s := if st.attrs &&& attrUnderline ≠ 0 then { s with out := s.out ++ env.underline }
           else s
  let s := if st.attrs &&& attrReverse ≠ 0 then { s with out := s.out ++ env.reverse } else s
  let s := if st.attrs &&& attrBlink ≠ 0 then { s with out := s.out ++ env.blink } else s
  let s := if st.attrs &&& attrDim ≠ 0 then { s with out := s.out ++ env.dim } else s
  let s := if st.attrs &&& attrItalic ≠ 0 then { s with out := s.out ++ env.italic } else s
  let s := if st.attrs &&& attrStrikeThrough ≠ 0 then { s with out := s.out ++ env.strike }
           else s
  { s with curstyle := st }

/-- The glyph bytes drawCell computes for a cell before the right-margin
check: the encoded main rune followed by the encoded combining runes. -/
def cellGlyph (env : REnv) (s : TS) (mainc : Nat) (combc : List Nat) : List Nat :=
  combc.foldl (fun b r => encodeRune env s r b) (encodeRune env s mainc [])

/-- The cursor-positioning step of drawCell: reposition when the cached
cursor is elsewhere. -/
def drawGoto (env : REnv) (s : TS) (x y : Nat) : TS :=
  if s.cy ≠ (y : Int) ∨ s.cx ≠ (x : Int) then
    { s with out := s.out ++ env.tgoto x y, cx := (x : Int), cy := (y : Int) }
  else s

/-- The style-transition step of drawCell: a default cell style falls back
to the screen style; a change against curstyle emits the transition. -/
def drawStyle (env : REnv) (s : TS) (style0 : Style) : TS :=
  let style := if style0 = styleDefault then s.style else style0
  if style ≠ s.curstyle then emitStyle env s style else s

/-- tScreen.drawCell: a clean cell just reports its width; otherwise the
cursor is repositioned when the cached position differs, the style
transition is emitted when needed, the glyph is encoded (a width-2 glyph
whose encoding collapsed to a question mark becomes question mark plus space
and invalidates the cached column), a glyph that would land past the right
margin is replaced by a single space of width 1, the cached column advances
by the final width, and a remaining width-2 write invalidates the cached
column. -/
def drawCell (env : REnv) (s : TS) (x y : Nat) : TS × Nat :=
  let g := s.cells.getContent x y
  let mainc := g.1
  let combc := g.2.1
  let style0 := g.2.2.1
  let width0 := g.2.2.2
  if !(s.cells.dirty x y) then (s, width0)
  else
    let s := drawGoto env s x y
    let s := drawStyle env s style0
    let width := if width0 < 1 then 1 else width0
    let str0 := cellGlyph env s mainc combc
    let sw : List Nat × TS :=
      if 1 < width ∧ str0 = [63] then ([63, 32], { s with cx := -1 }) else (str0, s)
    let s := sw.2
    let wstr : Nat × List Nat :=
      if (x : Int) > (s.w : Int) - (width : Int) then (1, [32]) else (width, sw.1)
    let width := wstr.1
    let s := { s with
      out := s.out ++ wstr.2,
      cx := s.cx + (width : Int),
      cells := s.cells.setDirty x y false }
    let s := if 1 < width then { s with cx := -1 } else s
    (s, width)

/-! ## The renderer loop and facade render operations -/

/-- The internal hideCursor: emit the capability, or park the cursor at the
bottom right when the terminal cannot hide it. -/
def hideCursorEmit (env : REnv) (s : TS) : TS :=
  if env.hideCursorCap ≠ [] then { s with out := s.out ++ env.hideCursorCap }
  else
    { s with
      cx := (s.cells.w : Int), cy := (s.cells.h : Int),
      out := s.out ++ env.tgoto s.cells.w s.cells.h }

/-- The internal showCursor: out-of-range cursor positions hide instead. -/
def showCursorEmit (env : REnv) (s : TS) : TS :=
  if s.cursorx < 0 ∨ s.cursory < 0 ∨ (s.cells.w : Int) ≤ s.cursorx ∨
      (s.cells.h : Int) ≤ s.cursory then
    hideCursorEmit env s
  else
    { s with
      out := s.out ++ env.tgoto s.cursorx.toNat s.cursory.toNat ++ env.showCursorCap,
      cx := s.cursorx, cy := s.cursory }

/-- tScreen.clearScreen. -/
def clearScreenEmit (env : REnv) (s : TS) : TS :=
  let s := sendFgBg env s s.style.fg s.style.bg
  { s with out := s.out ++ env.clearCap, clear := false }

/-- One row of the draw loop: x advances by the width drawCell reports and a
width-2 cell re-dirties its shadowed neighbour (fuel keeps the recursion
well founded; a zero-width cell would loop forever in Go). -/
def drawRow (env : REnv) : Nat → TS → Nat → Nat → TS
  | 0, s, _, _ => s
  | fuel + 1, s, y, x =>
      if x < s.w then
        let r := drawCell env s x y
        let s2 := if 1 < r.2 ∧ x + 1 < r.1.w then
            { r.1 with cells := r.1.cells.setDirty (x + 1) y true }
          else r.1
        drawRow env fuel s2 y (x + r.2)
      else s

/-- The row traversal of draw. -/
def drawRows (env : REnv) : Nat → TS → Nat → TS
  | 0, s, _ => s
  | fuel + 1, s, y =>
      if y < s.h then drawRows env fuel (drawRow env (s.w + 1) s y 0) (y + 1)
      else s

/-- tScreen.draw: clobber the cached cursor, hide the cursor, optionally
clear, draw the grid, restore the cursor. -/
def draw (env : REnv) (s : TS) : TS :=
  let s := { s with cx := -1, cy := -1 }
  let s := hideCursorEmit env s
  let s := if s.clear then clearScreenEmit env s else s
  let s := drawRows env (s.h + 1) s 0
  showCursorEmit env s

/-- tScreen.resize, with the window size supplied by the environment: on a
change the cached cursor is clobbered, the cell buffer resized and
invalidated, and a Resize event (w, h) queued. -/
def resizeScr (ws : Nat × Nat) (s : TS) : TS × List (Nat × Nat) :=
  if ws.1 ≠ s.w ∨ ws.2 ≠ s.h then
    ({ s with
       cx := -1, cy := -1,
       cells := (s.cells.resize ws.1 ws.2).invalidate,
       w := ws.1, h := ws.2 }, [(ws.1, ws.2)])
  else (s, [])

/-- tScreen.Show: a no-op once fini; otherwise resize then draw. -/
def showScr (env : REnv) (ws : Nat × Nat) (s : TS) : TS × List (Nat × Nat) :=
  if s.fini then (s, [])
  else
    let r := resizeScr ws s
    (draw env r.1, r.2)

/-- tScreen.Sync: always clobbers the cached cursor coordinates, and when
not fini also resizes, forces a clear, invalidates and redraws. -/
def sync (env : REnv) (ws : Nat × Nat) (s : TS) : TS × List (Nat × Nat) :=
  let s := { s with cx := -1, cy := -1 }
  if s.fini then (s, [])
  else
    let r := resizeScr ws s
    let s1 := { r.1 with clear := true, cells := r.1.cells.invalidate }
    (draw env s1, r.2)

/-! ## Clipboard operations -/

/-- Error results of the clipboard operations. -/
inductive ClipErr where
  | noRegister
  | invalidRegister
  | truncated
deriving DecidableEq, Repr

/-- The OSC-52 get sequence fmt.Sprintf(pasteGet, r). -/
def pasteGetSeq (r : Nat) : List Nat := oscBeginB ++ [r, 59, 63] ++ oscEndB

/-- The OSC-52 clear sequence fmt.Sprintf(pasteClear, r). -/
def pasteClearSeq (r : Nat) : List Nat := oscBeginB ++ [r, 59, 33] ++ oscEndB

/-- tScreen.GetClipboard: (emitted bytes, error).  Only the first byte of the
register argument is inspected. -/
def getClipboard (register : List Nat) : List Nat × Option ClipErr :=
  if register.length ≤ 0 then ([], some .noRegister)
  else
    let r := register.headD 0
    if r ≠ 99 ∧ r ≠ 112 then ([], some .invalidRegister)
    else (pasteGetSeq r, none)

/-- tScreen.SetClipboard: for an accepted register it always emits the
OSC-52 clear sequence followed by the set sequence carrying the full base64
text, and reports a truncation notice exactly when the text is 74994 bytes
or longer. -/
def setClipboard (text register : List Nat) : List Nat × Option ClipErr :=
  if register.length ≤ 0 then ([], some .noRegister)
  else
    let r := register.headD 0
    if r ≠ 99 ∧ r ≠ 112 then ([], some .invalidRegister)
    else
      let err := if 74994 ≤ text.length then some ClipErr.truncated else none
      (pasteClearSeq r ++ pasteSetSeq r (b64encode text), err)

/-! ## Concrete instances used by the theorems -/

/-- A minimal capability environment: no capability emits bytes, the
encoder rejects every rune (forcing the fallback path), every rune is
width 1 for SetContent, FindColor is the identity. -/
def nullREnv : REnv :=
  { tgoto := fun _ _ => [], hideCursorCap := [], showCursorCap := [], attrOff := [],
    bold := [], underline := [], reverse := [], blink := [], dim := [], italic := [],
    strike := [], clearCap := [], colors := 0, resetFgBg := [],
    setFgBgRGB := none, setFgRGB := none, setBgRGB := none, setFgBg := none,
    setFg := none, setBg := none, encodeRuneExt := fun _ => none,
    runeWidth := fun _ => 1, findColor := fun c _ => c }

/-- A finalised screen (the state right after finish). -/
def finiScreen : TS :=
  { fini := true, w := 2, h := 2,
    cells := { w := 2, h := 2, cells := [blankCell, blankCell, blankCell, blankCell] },
    style := styleDefault, curstyle := styleInvalid, cx := -1, cy := -1,
    cursorx := -1, cursory := -1, paste := false, clear := false, truecolor := false,
    fallback := [], acs := [], colorCache := [], palette := [], out := [] }

/-- A dirty width-2 cell whose rune the encoder cannot represent. -/
def wideCell : Cell :=
  { mainc := 9731, combc := [], style := styleDefault, width := 2, dirty := true }

/-- A live 1 × 1 screen holding the unrepresentable wide cell. -/
def c9Screen : TS :=
  { fini := false, w := 1, h := 1,
    cells := { w := 1, h := 1, cells := [wideCell] },
    style := styleDefault, curstyle := styleDefault, cx := -1, cy := -1,
    cursorx := -1, cursory := -1, paste := false, clear := false, truecolor := false,
    fallback := [], acs := [], colorCache := [], palette := [], out := [] }

/-- The screen fields the later stages of drawCell depend on; the colour and
attribute emission preserves them (it only appends output, memoises colours
and updates curstyle). -/
def presF (a b : TS) : Prop :=
  a.acs = b.acs ∧ a.fallback = b.fallback ∧ a.w = b.w ∧ a.cx = b.cx ∧
    a.cy = b.cy ∧ a.cells = b.cells ∧ a.truecolor = b.truecolor

/-! ## Lemmas about indexOfSub and prefixes -/

theorem indexOfSub_nil (pat : List Nat) :
    indexOfSub pat [] = if pat.isPrefixOf [] then some 0 else none := rfl

theorem indexOfSub_cons (pat : List Nat) (a : Nat) (t : List Nat) :
    indexOfSub pat (a :: t) =
      if pat.isPrefixOf (a :: t) then some 0 else (indexOfSub pat t).map (· + 1) := by
  rw [indexOfSub]

/-- Correctness of indexOfSub: it returns n when pat matches at n and at no
earlier position. -/
theorem indexOfSub_eq_some (pat : List Nat) :
    ∀ (s : List Nat) (n : Nat), pat <+: s.drop n → (∀ m < n, ¬ pat <+: s.drop m) →
      indexOfSub pat s = some n := by
  intro s
  induction s with
  | nil =>
      intro n h1 h2
      have hp : pat = [] := List.prefix_nil.mp (by simpa using h1)
      subst hp
      have hn : n = 0 := by
        by_contra hne
        exact h2 0 (by omega) List.nil_prefix
      subst hn
      rfl
  | cons a t ih =>
      intro n h1 h2
      by_cases hp : pat <+: (a :: t)
      · have hn : n = 0 := by
          by_contra hne
          exact h2 0 (by omega) (by simpa using hp)
        subst hn
        rw [indexOfSub_cons, if_pos (List.isPrefixOf_iff_prefix.mpr hp)]
      · have hn : n ≠ 0 := by
          intro h0
          subst h0
          exact hp (by simpa using h1)
        obtain ⟨m, rfl⟩ : ∃ m, n = m + 1 := ⟨n - 1, by omega⟩
        have hrec : indexOfSub pat t = some m := by
          apply ih m (by simpa using h1)
          intro k hk
          have := h2 (k + 1) (by omega)
          simpa using this
        rw [indexOfSub_cons, if_neg (fun hc => hp (List.isPrefixOf_iff_prefix.mp hc)), hrec]
        rfl

/-- A prefix of an append splits at the length of the left part. -/
theorem prefix_append_split {l a b : List Nat} (h : l <+: a ++ b)
    (hlen : a.length ≤ l.length) : a = l.take a.length ∧ l.drop a.length <+: b := by
  obtain ⟨t, ht⟩ := h
  constructor
  · have hc := congrArg (List.take a.length) ht
    rw [List.take_append_of_le_length hlen, List.take_left] at hc
    exact hc.symm
  · have hc := congrArg (List.drop a.length) ht
    rw [List.drop_append_of_le_length hlen, List.drop_left] at hc
    exact ⟨t, hc⟩

/-- A short prefix of an append is a prefix of the left part. -/
theorem prefix_of_append_of_le {l a b : List Nat} (h : l <+: a ++ b)
    (hlen : l.length ≤ a.length) : l <+: a := by
  obtain ⟨t, ht⟩ := h
  have hc := congrArg (List.take l.length) ht
  rw [List.take_left, List.take_append_of_le_length hlen] at hc
  rw [hc]
  exact List.take_prefix _ _

/-! ## CR → LF normalisation lemmas -/

/-- crlf fixes a list with no CR byte. -/
theorem map_crlf_fixed {e : List Nat} (he : ∀ c ∈ e, c ≠ 13) : e.map crlf = e := by
  induction e with
  | nil => rfl
  | cons a t ih =>
      have ha : a ≠ 13 := he a (List.mem_cons_self a t)
      have ht : ∀ c ∈ t, c ≠ 13 := fun c hc => he c (List.mem_cons_of_mem a hc)
      simp [crlf, ha, ih ht]

/-- A crlf image equal to a list with no LF byte forces equality. -/
theorem map_crlf_eq_of_no_lf (l : List Nat) : ∀ (e : List Nat), l.map crlf = e →
    (∀ c ∈ e, c ≠ 10) → l = e := by
  induction l with
  | nil => intro e h _; simpa using h
  | cons a t ih =>
      intro e h he
      cases e with
      | nil => simp at h
      | cons b e2 =>
          simp only [List.map_cons, List.cons.injEq] at h
          obtain ⟨hab, ht⟩ := h
          have hb : b ≠ 10 := he b (List.mem_cons_self b e2)
          have hab2 : a = b := by
            by_cases h13 : a = 13
            · exact absurd (by rw [← hab]; simp [crlf, h13]) hb.symm
            · rw [← hab]; simp [crlf, h13]
          rw [hab2, ih e2 ht (fun c hc => he c (List.mem_cons_of_mem b hc))]

/-- An occurrence of the paste end marker in the crlf image of P comes from
an occurrence in P itself (the marker contains neither CR nor LF). -/
theorem infix_map_crlf {P : List Nat} (h : pasteEndB <:+: P.map crlf) :
    pasteEndB <:+: P := by
  obtain ⟨s, t, hst⟩ := h
  have hdrop : (P.map crlf).drop s.length = pasteEndB ++ t := by
    rw [← hst, List.append_assoc, List.drop_left]
  have htake : ((P.map crlf).drop s.length).take 6 = pasteEndB := by
    rw [hdrop]
    exact List.take_left pasteEndB t
  have hm : ((P.drop s.length).take 6).map crlf = pasteEndB := by
    rw [List.map_take, List.map_drop, htake]
  have heq : (P.drop s.length).take 6 = pasteEndB :=
    map_crlf_eq_of_no_lf _ _ hm (by decide)
  have h1 : (P.drop s.length).take 6 <+: P.drop s.length := List.take_prefix _ _
  have h2 : P.drop s.length <:+ P := List.drop_suffix _ _
  exact heq ▸ (h1.isInfix.trans h2.isInfix)

/-- First occurrence of the paste end marker in begin ++ Q ++ end is right
after Q, provided Q does not contain the marker (the marker has no proper
border, so no occurrence can straddle a boundary). -/
theorem bracketed_end_idx (Q : List Nat) (hQ : ¬ pasteEndB <:+: Q) :
    indexOfSub pasteEndB (pasteBeginB ++ Q ++ pasteEndB) = some (6 + Q.length) := by
  apply indexOfSub_eq_some
  · have hlen : (pasteBeginB ++ Q).length = 6 + Q.length := by simp [pasteBeginB]; omega
    have hd : (pasteBeginB ++ Q ++ pasteEndB).drop (6 + Q.length) = pasteEndB := by
      rw [← hlen, List.drop_left]
    rw [hd]
  · intro m hm hpre
    by_cases hm6 : m < 6
    · rw [List.append_assoc, List.drop_append_of_le_length (by simp [pasteBeginB]; omega)]
        at hpre
      interval_cases m <;>
        simp [pasteBeginB, pasteEndB, List.cons_prefix_cons] at hpre
    · obtain ⟨j, rfl⟩ : ∃ j, m = 6 + j := ⟨m - 6, by omega⟩
      have hj : j < Q.length := by omega
      have hd : (pasteBeginB ++ Q ++ pasteEndB).drop (6 + j) = Q.drop j ++ pasteEndB := by
        rw [List.append_assoc]
        have h6 : (6 : Nat) + j = pasteBeginB.length + j := by simp [pasteBeginB]
        rw [h6, List.drop_append, List.drop_append_of_le_length (by omega)]
      rw [hd] at hpre
      by_cases hk : 6 ≤ (Q.drop j).length
      · have hpq : pasteEndB <+: Q.drop j :=
          prefix_of_append_of_le hpre (by simpa using hk)
        exact hQ (hpq.isInfix.trans (List.drop_suffix j Q).isInfix)
      · have hld : (Q.drop j).length = Q.length - j := List.length_drop j Q
        have hkle : (Q.drop j).length ≤ pasteEndB.length := by
          simp only [pasteEndB, List.length_cons, List.length_nil]
          omega
        obtain ⟨-, hb⟩ := prefix_append_split hpre hkle
        have hk1 : 1 ≤ (Q.drop j).length := by omega
        have hk5 : (Q.drop j).length ≤ 5 := by omega
        set k := (Q.drop j).length with hkdef
        interval_cases k <;> revert hb <;> decide

/-! ## Base64 lemmas -/

theorem b64val_b64char : ∀ v < 64, b64val (b64char v) = some v := by decide

theorem b64char_ne_61 : ∀ v < 64, b64char v ≠ 61 := by decide

theorem b64char_ne_27 (v : Nat) : b64char v ≠ 27 := by
  unfold b64char
  split_ifs <;> omega

/-- No byte of a base64 encoding is ESC. -/
theorem b64encode_no_esc : ∀ (t : List Nat), ∀ c ∈ b64encode t, c ≠ 27
  | [] => by simp [b64encode]
  | [a] => by
      intro c hc
      simp [b64encode] at hc
      rcases hc with h | h | h <;> subst h
      · exact b64char_ne_27 _
      · exact b64char_ne_27 _
      · decide
  | [a, b] => by
      intro c hc
      simp [b64encode] at hc
      rcases hc with h | h | h | h <;> subst h
      · exact b64char_ne_27 _
      · exact b64char_ne_27 _
      · exact b64char_ne_27 _
      · decide
  | a :: b :: c :: rest => by
      intro x hx
      simp only [b64encode, List.mem_cons] at hx
      rcases hx with h | h | h | h | h
      · exact h ▸ b64char_ne_27 _
      · exact h ▸ b64char_ne_27 _
      · exact h ▸ b64char_ne_27 _
      · exact h ▸ b64char_ne_27 _
      · exact b64encode_no_esc rest x h

/-- Decoding inverts encoding on byte lists. -/
theorem b64_roundtrip : ∀ (t : List Nat), (∀ b ∈ t, b < 256) →
    b64decode (b64encode t) = some t
  | [], _ => rfl
  | [a], h => by
      have ha : a < 256 := h a (by simp)
      have h1 : a / 4 < 64 := by omega
      have h2 : a % 4 * 16 < 64 := by omega
      simp [b64encode, b64decode, b64val_b64char _ h1, b64val_b64char _ h2]
      omega
  | [a, b], h => by
      have ha : a < 256 := h a (by simp)
      have hb : b < 256 := h b (by simp)
      have h1 : a / 4 < 64 := by omega
      have h2 : a % 4 * 16 + b / 16 < 64 := by omega
      have h3 : b % 16 * 4 < 64 := by omega
      have hne : b64char (b % 16 * 4) ≠ 61 := b64char_ne_61 _ h3
      simp [b64encode, b64decode, b64val_b64char _ h1, b64val_b64char _ h2,
        b64val_b64char _ h3, hne]
      constructor <;> omega
  | a :: b :: c :: rest, h => by
      have ha : a < 256 := h a (by simp)
      have hb : b < 256 := h b (by simp)
      have hc : c < 256 := h c (by simp)
      have hrec := b64_roundtrip rest (fun x hx => h x (by simp [hx]))
      have h1 : a / 4 < 64 := by omega
      have h2 : a % 4 * 16 + b / 16 < 64 := by omega
      have h3 : b % 16 * 4 + c / 64 < 64 := by omega
      have h4 : c % 64 < 64 := by omega
      have hne : b64char (b % 16 * 4 + c / 64) ≠ 61 := b64char_ne_61 _ h3
      have hne4 : b64char (c % 64) ≠ 61 := b64char_ne_61 _ h4
      simp [b64encode, b64decode, b64val_b64char _ h1, b64val_b64char _ h2,
        b64val_b64char _ h3, b64val_b64char _ h4, hne, hne4, hrec]
      refine ⟨by omega, by omega, by omega⟩

/-! ## Claim theorems: lone ESC, SGR mouse, X10 mouse, the escaped flag -/

/-- C1: with paste mode off and the buffer holding exactly the single byte
ESC, a scan with expire=false emits no event and leaves the byte in the
buffer; a scan with expire=true emits exactly one Key event with key Esc,
modifier none, raw bytes ESC, consuming the byte. -/
theorem c1_lone_esc :
    collectEvents stdEnv freshPState [27] false = ([], freshPState, [27]) ∧
    collectEvents stdEnv freshPState [27] true =
      ([Event.key keyEsc 0 modNone [27]], { freshPState with escbuf := [27] }, []) := by
  constructor <;> rfl

/-- C3: on a fresh screen of size at least 10 × 5, the SGR press report
ESC [ < 0 ; 10 ; 5 M followed by the release report ESC [ < 0 ; 10 ; 5 m
produces exactly the two Mouse events (9, 4, Button1, no modifier) and then
(9, 4, no button, no modifier): the m terminator clears all buttons and the
decimal coordinates are decremented by one. -/
theorem c3_sgr_press_release (w h : Nat) (hw : 10 ≤ w) (hh : 5 ≤ h) :
    collectEvents (stdEnvWH w h) freshPState
      [27, 91, 60, 48, 59, 49, 48, 59, 53, 77, 27, 91, 60, 48, 59, 49, 48, 59, 53, 109]
      false =
      ([Event.mouse 9 4 MouseButton.button1 modNone [27, 91, 60, 48, 59, 49, 48, 59, 53, 77],
        Event.mouse 9 4 MouseButton.none modNone [27, 91, 60, 48, 59, 49, 48, 59, 53, 109]],
       freshPState, []) := by
  have hwi : (10 : Int) ≤ (w : Int) := by exact_mod_cast hw
  have hhi : (5 : Int) ≤ (h : Int) := by exact_mod_cast hh
  have hx' : ¬ ((9 : Int) > (w : Int) - 1) := by omega
  have hy' : ¬ ((4 : Int) > (h : Int) - 1) := by omega
  have hclip : clip (stdEnvWH w h) 9 4 = (9, 4) := by
    simp only [clip, stdEnvWH]
    split_ifs <;> simp_all [Prod.ext_iff]
  have main :
      collectEvents (stdEnvWH w h) freshPState
        [27, 91, 60, 48, 59, 49, 48, 59, 53, 77, 27, 91, 60, 48, 59, 49, 48, 59, 53, 109]
        false =
      ([Event.mouse (clip (stdEnvWH w h) 9 4).1 (clip (stdEnvWH w h) 9 4).2
          MouseButton.button1 modNone [27, 91, 60, 48, 59, 49, 48, 59, 53, 77],
        Event.mouse (clip (stdEnvWH w h) 9 4).1 (clip (stdEnvWH w h) 9 4).2
          MouseButton.none modNone [27, 91, 60, 48, 59, 49, 48, 59, 53, 109]],
       freshPState, []) := rfl
  rw [hclip] at main
  simpa using main

/-- C3 witness: the theorem applied at the concrete size 10 × 5. -/
theorem c3_sgr_press_release_witness :
    collectEvents (stdEnvWH 10 5) freshPState
      [27, 91, 60, 48, 59, 49, 48, 59, 53, 77, 27, 91, 60, 48, 59, 49, 48, 59, 53, 109]
      false =
      ([Event.mouse 9 4 MouseButton.button1 modNone [27, 91, 60, 48, 59, 49, 48, 59, 53, 77],
        Event.mouse 9 4 MouseButton.none modNone [27, 91, 60, 48, 59, 49, 48, 59, 53, 109]],
       freshPState, []) :=
  c3_sgr_press_release 10 5 (by decide) (by decide)

/-- C4 counterexample: the X10 sub-parser does NOT de-bias the button byte by
32+1 — only x and y.  On ESC [ M then bytes (35, 43, 43) the code takes the
button value 35 raw (35 & 0x43 = 3, so no button), whereas de-biasing it by
33 as the claim states would give 2, i.e. Button2. -/
theorem c4_counterexample :
    (collectEvents stdEnv freshPState [27, 91, 77, 35, 43, 43] false).1 =
      [Event.mouse 10 10 MouseButton.none modNone [27, 91, 77, 35, 43, 43]] ∧
    (buildMouseEvent stdEnv { freshPState with escbuf := [27, 91, 77, 35, 43, 43] }
        10 10 ((35 : Int) - 33)).2 =
      Event.mouse 10 10 MouseButton.button2 modNone [27, 91, 77, 35, 43, 43] ∧
    MouseButton.none ≠ MouseButton.button2 :=
  ⟨rfl, rfl, by decide⟩

/-- C4 amended: the X10 sub-parser recognises ESC [ M followed by exactly
three bytes and builds the mouse event from (btn, x, y) where the button is
the raw third byte while x and y are each de-biased by 32+1. -/
theorem c4_x10_decode (env : PEnv) (s : PState) (hs : s.escaped = false)
    (b1 b2 b3 : Nat) (rest : List Nat) :
    parseXtermMouse env s ([27, 91, 77, b1, b2, b3] ++ rest) =
      (let s1 := { s with escbuf := s.escbuf ++ [27, 91, 77, b1, b2, b3] }
       let r := buildMouseEvent env s1 ((b2 : Int) - 32 - 1) ((b3 : Int) - 32 - 1) (b1 : Int)
       PR.done r.1 rest [r.2]) := by
  unfold parseXtermMouse
  rw [hs]
  rfl

/-- C4 witness: the amended theorem applied at bytes (35, 43, 43) on the
fresh state. -/
theorem c4_x10_decode_witness :
    freshPState.escaped = false ∧
    parseXtermMouse stdEnv freshPState ([27, 91, 77, 35, 43, 43] ++ []) =
      (let s1 := { freshPState with escbuf := freshPState.escbuf ++ [27, 91, 77, 35, 43, 43] }
       let r := buildMouseEvent stdEnv s1 ((43 : Int) - 32 - 1) ((43 : Int) - 32 - 1)
         ((35 : Nat) : Int)
       PR.done r.1 [] [r.2]) :=
  ⟨rfl, c4_x10_decode stdEnv freshPState rfl 35 43 43 []⟩

/-- C5 counterexample: the escaped flag is NOT cleared on every non-Esc event
emission.  After ESC ESC the flag is set; the bracketed paste that follows
emits a Paste event leaving the flag set, so the rune event for the trailing
a still carries Alt — under the claim the paste emission would have cleared
the flag and the rune would carry no modifier. -/
theorem c5_counterexample :
    collectEvents stdEnv freshPState
      [27, 27, 91, 50, 48, 48, 126, 104, 105, 27, 91, 50, 48, 49, 126, 97] false =
      ([Event.paste [104, 105]
          [27, 27, 91, 50, 48, 48, 126, 104, 105, 27, 91, 50, 48, 49, 126],
        Event.key keyRune 97 modAlt [97]],
       freshPState, []) := by
  rfl

/-- C5 amended: a bare ESC with follow-up sets the escaped flag; the next
completed key or rune event inherits Alt, and the flag is cleared by rune
emissions, by function-key emissions and by the lone-Esc resolution, but
paste, mouse and raw emissions leave it untouched.  In particular ESC a
yields exactly one event Key(Rune, a, Alt) with raw bytes ESC a once the
quiet timer expires.  The clauses in order: the two-byte ESC a behaviour;
escaped rune emissions carry Alt and clear the flag; function-key emissions
clear the flag and, from an escaped state, carry Alt; the lone-Esc
resolution clears the flag; bracketed-paste, OSC-52-paste, X10-mouse and
SGR-mouse emissions all preserve the flag; a Raw emission of a registered
raw sequence preserves a set flag. -/
theorem c5_escaped_alt :
    (collectEvents stdEnv freshPState [27, 97] false = ([], freshPState, [27, 97]) ∧
     collectEvents stdEnv freshPState [27, 97] true =
       ([Event.key keyRune 97 modAlt [27, 97]], freshPState, [])) ∧
    (∀ (env : PEnv) (s : PState) (b : Nat) (buf : List Nat),
      s.escaped = true → 32 ≤ b → b ≤ 127 →
      parseRune env s (b :: buf) =
        .done { s with escaped := false, escbuf := [] } buf
          [Event.key keyRune b modAlt (s.escbuf ++ [b])]) ∧
    (∀ (env : PEnv) (s s1 : PState) (buf buf1 : List Nat) (evs : List Event),
      parseFunctionKey env s buf = .done s1 buf1 evs →
        s1.escaped = false ∧
        (s.escaped = true → ∃ k r m raw, evs = [Event.key k r (m ||| modAlt) raw])) ∧
    (∀ (es wb bd : Bool) (eb : List Nat),
      collectEvents stdEnv ⟨es, wb, bd, eb⟩ [27] true =
        ([Event.key keyEsc 0 modNone [27]], ⟨false, wb, bd, [27]⟩, [])) ∧
    (∀ (s s1 : PState) (buf buf1 : List Nat) (evs : List Event),
      parseBracketedPaste s buf = .done s1 buf1 evs → s1.escaped = s.escaped) ∧
    (∀ (s s1 : PState) (buf buf1 : List Nat) (evs : List Event),
      parseOSC52Paste s buf = .done s1 buf1 evs → s1.escaped = s.escaped) ∧
    (∀ (env : PEnv) (s s1 : PState) (buf buf1 : List Nat) (evs : List Event),
      parseXtermMouse env s buf = .done s1 buf1 evs → s1.escaped = s.escaped) ∧
    (∀ (env : PEnv) (s s1 : PState) (buf buf1 : List Nat) (evs : List Event),
      parseSgrMouse env s buf = .done s1 buf1 evs → s1.escaped = s.escaped) ∧
    (∀ (wb bd : Bool) (eb : List Nat),
      collectEvents { stdEnv with rawseq := [[27, 120]] } ⟨true, wb, bd, eb⟩
          [27, 120] false =
        ([Event.evRaw [27, 120]], ⟨true, wb, bd, []⟩, [])) := by
  refine ⟨⟨rfl, rfl⟩, ?_, ?_, ?_, ?_, ?_, ?_, ?_, ?_⟩
  · intro env s b buf hesc hb1 hb2
    simp only [parseRune, hesc]
    rw [if_pos ⟨hb1, hb2⟩]
    simp
  · intro env s s1 buf buf1 evs hdone
    unfold parseFunctionKey at hdone
    split at hdone
    next kc heq =>
      dsimp only at hdone
      cases hdone
      refine ⟨rfl, fun hesc => ?_⟩
      refine ⟨kc.2.1, (if kc.1.length = 1 then buf.headD 0 else 0), kc.2.2,
        s.escbuf ++ buf.take kc.1.length, ?_⟩
      simp [hesc]
    next heq =>
      split at hdone <;> cases hdone
  · intro es wb bd eb
    cases es <;> rfl
  · intro s s1 buf buf1 evs hdone
    unfold parseBracketedPaste at hdone
    dsimp only at hdone
    split at hdone
    · split at hdone
      · split at hdone
        · cases hdone
          rfl
        · cases hdone
      · cases hdone
    · cases hdone
  · intro s s1 buf buf1 evs hdone
    unfold parseOSC52Paste at hdone
    dsimp only at hdone
    split at hdone
    · split at hdone
      · split at hdone
        · split at hdone
          · cases hdone
            rfl
          · cases hdone
            rfl
        · cases hdone
      · cases hdone
    · cases hdone
  · intro env s s1 buf buf1 evs hdone
    unfold parseXtermMouse at hdone
    split at hdone
    · dsimp only at hdone
      cases hdone
      rfl
    · cases hdone
    · cases hdone
  · intro env s s1 buf buf1 evs hdone
    unfold parseSgrMouse at hdone
    split at hdone
    · dsimp only at hdone
      cases hdone
      rfl
    · cases hdone
    · cases hdone
  · intro wb bd eb
    rfl

/-- C5 witness: the rune clause applied at the byte a on the escaped fresh
state, the function-key clause applied at the Up-arrow sequence from an
escaped state, and the X10-mouse clause applied at a completed record from
an escaped state. -/
theorem c5_escaped_alt_witness :
    (parseRune stdEnv { freshPState with escaped := true } [97] =
      .done freshPState [] [Event.key keyRune 97 modAlt [97]]) ∧
    (∃ k r m raw,
      ([Event.key keyUp 0 (modNone ||| modAlt) [27, 91, 65]] : List Event) =
        [Event.key k r (m ||| modAlt) raw]) ∧
    PState.escaped ⟨true, true, false, []⟩ = PState.escaped ⟨true, false, false, []⟩ := by
  refine ⟨?_, ?_, ?_⟩
  · exact c5_escaped_alt.2.1 stdEnv { freshPState with escaped := true } 97 [] rfl
      (by decide) (by decide)
  · exact (c5_escaped_alt.2.2.1 stdEnv ⟨true, false, false, []⟩
      ⟨false, false, false, []⟩ [27, 91, 65] []
      [Event.key keyUp 0 (modNone ||| modAlt) [27, 91, 65]] rfl).2 rfl
  · exact c5_escaped_alt.2.2.2.2.2.2.1 stdEnv ⟨true, false, false, []⟩
      ⟨true, true, false, []⟩ [91, 77, 32, 33, 33] []
      [Event.mouse 0 0 MouseButton.button1 0 [91, 77, 32, 33, 33]] rfl

/-! ## Scan-loop stepping lemmas -/

theorem collectLoop_nil (env : PEnv) (expire : Bool) (fuel : Nat) (s : PState)
    (acc : List Event) : collectLoop env expire fuel s [] acc = (acc, s, []) := by
  cases fuel <;> rfl

/-- One loop iteration when paste mode is off, the OSC-52 sub-parser abstains
and the bracketed-paste sub-parser completes. -/
theorem collectLoop_step_brk (env : PEnv) (expire : Bool) (fuel : Nat) (s : PState)
    (buf : List Nat) (acc : List Event) (s1 : PState) (buf1 : List Nat) (evs : List Event)
    (hne : buf ≠ []) (hpaste : env.paste = false)
    (hosc : parseOSC52Paste s buf = PR.nope)
    (hbrk : parseBracketedPaste s buf = PR.done s1 buf1 evs) :
    collectLoop env expire (fuel + 1) s buf acc =
      collectLoop env expire fuel s1 buf1 (acc ++ evs) := by
  cases buf with
  | nil => exact absurd rfl hne
  | cons b0 bt =>
      conv_lhs => rw [collectLoop]
      simp only [hpaste, hosc, hbrk, Bool.false_eq_true, if_false]

/-- One loop iteration when paste mode is off and the OSC-52 sub-parser
completes. -/
theorem collectLoop_step_osc (env : PEnv) (expire : Bool) (fuel : Nat) (s : PState)
    (buf : List Nat) (acc : List Event) (s1 : PState) (buf1 : List Nat) (evs : List Event)
    (hne : buf ≠ []) (hpaste : env.paste = false)
    (hosc : parseOSC52Paste s buf = PR.done s1 buf1 evs) :
    collectLoop env expire (fuel + 1) s buf acc =
      collectLoop env expire fuel s1 buf1 (acc ++ evs) := by
  cases buf with
  | nil => exact absurd rfl hne
  | cons b0 bt =>
      conv_lhs => rw [collectLoop]
      simp only [hpaste, hosc, Bool.false_eq_true, if_false]

/-- C2: for every payload P free of the end marker, the byte sequence
begin ++ P ++ end produces exactly one Paste event whose text is P with CR
normalised to LF, and no other events. -/
theorem c2_bracketed_paste (P : List Nat) (hP : ¬ pasteEndB <:+: P) :
    collectEvents stdEnv freshPState (pasteBeginB ++ P ++ pasteEndB) false =
      ([Event.paste (P.map crlf) (pasteBeginB ++ P ++ pasteEndB)], freshPState, []) := by
  have hstr : (pasteBeginB ++ P ++ pasteEndB).map crlf =
      pasteBeginB ++ P.map crlf ++ pasteEndB := by
    simp [pasteBeginB, pasteEndB, crlf, List.map_append]
  have hidx : indexOfSub pasteEndB (pasteBeginB ++ P.map crlf ++ pasteEndB) =
      some (6 + P.length) := by
    have := bracketed_end_idx (P.map crlf) (fun h => hP (infix_map_crlf h))
    simpa using this
  have hosc : parseOSC52Paste freshPState (pasteBeginB ++ P ++ pasteEndB) = PR.nope := by
    rw [show pasteBeginB ++ P ++ pasteEndB =
      27 :: 91 :: 50 :: 48 :: 48 :: 126 :: (P ++ pasteEndB) from by simp [pasteBeginB]]
    rfl
  have hbrk : parseBracketedPaste freshPState (pasteBeginB ++ P ++ pasteEndB) =
      PR.done freshPState []
        [Event.paste (P.map crlf) (pasteBeginB ++ P ++ pasteEndB)] := by
    unfold parseBracketedPaste
    dsimp only
    rw [hstr]
    have hc : pasteBeginB.isPrefixOf (pasteBeginB ++ P.map crlf ++ pasteEndB) = true := by
      rw [List.isPrefixOf_iff_prefix, List.append_assoc]
      exact List.prefix_append _ _
    rw [hc, hidx]
    simp only [Bool.true_or, if_true]
    rw [if_pos (by omega : 6 ≤ 6 + P.length)]
    have htext : ((pasteBeginB ++ P.map crlf ++ pasteEndB).take (6 + P.length)).drop 6
        = P.map crlf := by
      rw [show (6 : Nat) + P.length = (pasteBeginB ++ P.map crlf).length from by
        simp [pasteBeginB]; omega]
      rw [List.take_left]
      rw [show (6 : Nat) = pasteBeginB.length from by simp [pasteBeginB]]
      rw [List.drop_left]
    have htake : (pasteBeginB ++ P ++ pasteEndB).take (6 + P.length + 6)
        = pasteBeginB ++ P ++ pasteEndB :=
      List.take_of_length_le (by simp [pasteBeginB, pasteEndB]; omega)
    have hdrop : (pasteBeginB ++ P ++ pasteEndB).drop (6 + P.length + 6) = [] :=
      List.drop_eq_nil_of_le (by simp [pasteBeginB, pasteEndB]; omega)
    rw [htext, htake, hdrop]
    simp [freshPState]
  unfold collectEvents
  rw [collectLoop_step_brk stdEnv false _ freshPState _ [] freshPState [] _
    (by simp [pasteBeginB]) rfl hosc hbrk, collectLoop_nil]
  simp

/-- C2 witness: the theorem applied at the payload hello CR LF world. -/
theorem c2_bracketed_paste_witness :
    collectEvents stdEnv freshPState
      (pasteBeginB ++ [104, 101, 108, 108, 111, 13, 10, 119, 111, 114, 108, 100] ++ pasteEndB)
      false =
      ([Event.paste ([104, 101, 108, 108, 111, 13, 10, 119, 111, 114, 108, 100].map crlf)
          (pasteBeginB ++ [104, 101, 108, 108, 111, 13, 10, 119, 111, 114, 108, 100] ++
            pasteEndB)],
       freshPState, []) :=
  c2_bracketed_paste [104, 101, 108, 108, 111, 13, 10, 119, 111, 114, 108, 100] (by decide)

/-! ## OSC-52 round-trip -/

/-- First occurrence of the terminator in an OSC-52 set sequence whose
payload contains no ESC byte. -/
theorem osc_end_idx (enc : List Nat) (henc : ∀ c ∈ enc, c ≠ 27) :
    indexOfSub oscEndB (pasteSetSeq 99 enc) = some (7 + enc.length) := by
  apply indexOfSub_eq_some
  · have hform : pasteSetSeq 99 enc = (oscBeginB ++ [99, 59] ++ enc) ++ oscEndB := by
      simp [pasteSetSeq, List.append_assoc]
    have hlen : (oscBeginB ++ [99, 59] ++ enc).length = 7 + enc.length := by
      simp [oscBeginB]; omega
    rw [hform, ← hlen, List.drop_left]
  · intro m hm hpre
    have hform : pasteSetSeq 99 enc = (oscBeginB ++ [99, 59]) ++ (enc ++ oscEndB) := by
      simp [pasteSetSeq, List.append_assoc]
    rw [hform] at hpre
    by_cases hm7 : m < 7
    · rw [List.drop_append_of_le_length (by simp [oscBeginB]; omega)] at hpre
      interval_cases m <;>
        simp [oscBeginB, oscEndB, List.cons_prefix_cons] at hpre
    · obtain ⟨j, rfl⟩ : ∃ j, m = 7 + j := ⟨m - 7, by omega⟩
      have hj : j < enc.length := by omega
      rw [show (7 : Nat) + j = (oscBeginB ++ [99, 59]).length + j from by simp [oscBeginB],
        List.drop_append, List.drop_append_of_le_length (by omega)] at hpre
      cases hdj : enc.drop j with
      | nil =>
          have hlz : (enc.drop j).length = 0 := by rw [hdj]; rfl
          rw [List.length_drop] at hlz
          omega
      | cons c cs =>
          rw [hdj, List.cons_append] at hpre
          have hpre2 : (27 : Nat) :: [92] <+: c :: (cs ++ oscEndB) := hpre
          have h27 := (List.cons_prefix_cons.mp hpre2).1
          have hcmem : c ∈ enc := by
            have hmem : c ∈ enc.drop j := by rw [hdj]; exact List.mem_cons_self _ _
            exact List.drop_subset j enc hmem
          exact henc c hcmem h27.symm

/-- C6: for every text t, the echoed OSC-52 set sequence for register c built
from base64(t) — exactly what SetClipboard emits — parses back to exactly one
Paste event whose text is t. -/
theorem c6_osc52_roundtrip (t : List Nat) (ht : ∀ b ∈ t, b < 256) :
    collectEvents stdEnv freshPState (pasteSetSeq 99 (b64encode t)) false =
      ([Event.paste t (pasteSetSeq 99 (b64encode t))], freshPState, []) := by
  have hidx : indexOfSub oscEndB (pasteSetSeq 99 (b64encode t)) =
      some (7 + (b64encode t).length) := osc_end_idx _ (b64encode_no_esc t)
  have hosc : parseOSC52Paste freshPState (pasteSetSeq 99 (b64encode t)) =
      PR.done freshPState [] [Event.paste t (pasteSetSeq 99 (b64encode t))] := by
    unfold parseOSC52Paste
    have hc : oscBeginB.isPrefixOf (pasteSetSeq 99 (b64encode t)) = true := by
      rw [List.isPrefixOf_iff_prefix]
      rw [show pasteSetSeq 99 (b64encode t) =
        oscBeginB ++ ([99, 59] ++ b64encode t ++ oscEndB) from by
          simp [pasteSetSeq, List.append_assoc]]
      exact List.prefix_append _ _
    rw [hc, hidx]
    simp only [Bool.true_or, if_true]
    rw [if_pos (by omega : 7 ≤ 7 + (b64encode t).length)]
    have hpay : ((pasteSetSeq 99 (b64encode t)).take (7 + (b64encode t).length)).drop 7 =
        b64encode t := by
      rw [show pasteSetSeq 99 (b64encode t) =
        (oscBeginB ++ [99, 59] ++ b64encode t) ++ oscEndB from by
          simp [pasteSetSeq, List.append_assoc]]
      rw [show (7 : Nat) + (b64encode t).length =
        (oscBeginB ++ [99, 59] ++ b64encode t).length from by simp [oscBeginB]; omega]
      rw [List.take_left]
      rw [show (7 : Nat) = (oscBeginB ++ [99, 59]).length from by simp [oscBeginB],
        List.drop_left]
    rw [hpay, b64_roundtrip t ht]
    rw [show (pasteSetSeq 99 (b64encode t)).drop (7 + (b64encode t).length + 2) = [] from
      List.drop_eq_nil_of_le (by simp [pasteSetSeq, oscBeginB, oscEndB]; omega)]
    simp [freshPState]
  unfold collectEvents
  rw [collectLoop_step_osc stdEnv false _ freshPState _ [] freshPState [] _
    (by simp [pasteSetSeq, oscBeginB]) rfl hosc, collectLoop_nil]
  simp

/-- C6 witness: the round trip applied at the text hello. -/
theorem c6_osc52_roundtrip_witness :
    collectEvents stdEnv freshPState (pasteSetSeq 99 (b64encode [104, 101, 108, 108, 111]))
      false =
      ([Event.paste [104, 101, 108, 108, 111]
          (pasteSetSeq 99 (b64encode [104, 101, 108, 108, 111]))], freshPState, []) :=
  c6_osc52_roundtrip [104, 101, 108, 108, 111] (by decide)

/-! ## Mouse coordinate clipping -/

/-- clip lands inside the screen rectangle whenever it is nonempty. -/
theorem clip_bounds (env : PEnv) (x y : Int) (hw : 1 ≤ env.w) (hh : 1 ≤ env.h) :
    0 ≤ (clip env x y).1 ∧ (clip env x y).1 ≤ (env.w : Int) - 1 ∧
    0 ≤ (clip env x y).2 ∧ (clip env x y).2 ≤ (env.h : Int) - 1 := by
  have hw1 : (1 : Int) ≤ (env.w : Int) := by exact_mod_cast hw
  have hh1 : (1 : Int) ≤ (env.h : Int) := by exact_mod_cast hh
  unfold clip
  dsimp only
  split_ifs <;> refine ⟨by omega, by omega, by omega, by omega⟩

/-- The event half of buildMouseEvent always carries the clipped
coordinates. -/
theorem buildMouseEvent_snd (env : PEnv) (s : PState) (x y btn : Int) :
    ∃ mb md, (buildMouseEvent env s x y btn).2 =
      Event.mouse (clip env x y).1 (clip env x y).2 mb md s.escbuf := by
  unfold buildMouseEvent
  exact ⟨_, _, rfl⟩

/-- C10: every Mouse event either mouse sub-parser delivers has its
coordinates clipped into the screen rectangle: for a screen with w ≥ 1 and
h ≥ 1, any completed X10 or SGR record — whatever its reported, possibly
negative or out-of-range coordinates — yields an event with
0 ≤ x ≤ w−1 and 0 ≤ y ≤ h−1. -/
theorem c10_mouse_clip (env : PEnv) (s : PState) (buf : List Nat)
    (hw : 1 ≤ env.w) (hh : 1 ≤ env.h) (s1 : PState) (buf1 : List Nat) (evs : List Event)
    (hdone : parseSgrMouse env s buf = PR.done s1 buf1 evs ∨
             parseXtermMouse env s buf = PR.done s1 buf1 evs) :
    ∀ ev ∈ evs, ∀ x y mb md raw, ev = Event.mouse x y mb md raw →
      0 ≤ x ∧ x ≤ (env.w : Int) - 1 ∧ 0 ≤ y ∧ y ≤ (env.h : Int) - 1 := by
  intro ev hev x y mb md raw hev2
  rcases hdone with hdone | hdone
  · unfold parseSgrMouse at hdone
    cases hm : sgrLoop s.buttondn (if s.escaped then 1 else 0) 0 0 0 0 false false 0 buf with
    | done n xx yy bb bdn =>
        rw [hm] at hdone
        dsimp only at hdone
        cases hdone
        simp only [List.mem_singleton] at hev
        obtain ⟨mb2, md2, hbm⟩ := buildMouseEvent_snd env
          { s with buttondn := bdn, escbuf := s.escbuf ++ buf.take n } xx yy bb
        rw [hev, hbm, Event.mouse.injEq] at hev2
        obtain ⟨hx, hy, -, -, -⟩ := hev2
        rw [← hx, ← hy]
        exact clip_bounds env xx yy hw hh
    | more => rw [hm] at hdone; simp at hdone
    | nope => rw [hm] at hdone; simp at hdone
  · unfold parseXtermMouse at hdone
    cases hm : xtermLoop (if s.escaped then 1 else 0) 0 0 0 0 buf with
    | done n xx yy bb bdn =>
        rw [hm] at hdone
        dsimp only at hdone
        cases hdone
        simp only [List.mem_singleton] at hev
        obtain ⟨mb2, md2, hbm⟩ := buildMouseEvent_snd env
          { s with escbuf := s.escbuf ++ buf.take n } xx yy bb
        rw [hev, hbm, Event.mouse.injEq] at hev2
        obtain ⟨hx, hy, -, -, -⟩ := hev2
        rw [← hx, ← hy]
        exact clip_bounds env xx yy hw hh
    | more => rw [hm] at hdone; simp at hdone
    | nope => rw [hm] at hdone; simp at hdone

/-- C10 witness: the bound instantiated on the completed SGR record
ESC [ < 0 ; 10 ; 5 M on the standard 80 × 24 environment. -/
theorem c10_mouse_clip_witness :
    (0 : Int) ≤ 9 ∧ (9 : Int) ≤ (stdEnv.w : Int) - 1 ∧
    (0 : Int) ≤ 4 ∧ (4 : Int) ≤ (stdEnv.h : Int) - 1 := by
  have h := c10_mouse_clip stdEnv freshPState [27, 91, 60, 48, 59, 49, 48, 59, 53, 77]
    (by decide) (by decide) _ _ _ (Or.inl rfl)
  exact h (Event.mouse 9 4 MouseButton.button1 0 [27, 91, 60, 48, 59, 49, 48, 59, 53, 77])
    (List.mem_singleton.mpr rfl) 9 4 MouseButton.button1 0
    [27, 91, 60, 48, 59, 49, 48, 59, 53, 77] rfl

/-! ## Finalisation guards -/

/-- C7 counterexample: not every mutating facade operation is a no-op once
fini is set.  SetPaste, ShowCursor and RegisterRuneFallback carry no fini
guard and still change the paste mode, the cursor position and the rune
fallbacks of a finalised screen. -/
theorem c7_counterexample :
    finiScreen.fini = true ∧
    setPaste true finiScreen ≠ finiScreen ∧
    showCursorOp 1 1 finiScreen ≠ finiScreen ∧
    registerRuneFallback 97 [63] finiScreen ≠ finiScreen := by
  refine ⟨rfl, ?_, ?_, ?_⟩ <;> decide

/-- C7 amended: once fini is true, SetStyle, Fill, SetContent and Show leave
the screen unchanged and Sync only clobbers the cached cursor coordinates;
but SetPaste, ShowCursor, HideCursor and RegisterRuneFallback are unguarded
and still mutate the paste mode, cursor position and fallbacks. -/
theorem c7_fini_behaviour (env : REnv) (ws : Nat × Nat) (s : TS) (hf : s.fini = true)
    (st : Style) (r x y mainc : Nat) (combc : List Nat) (cx cy : Int) (p : Bool)
    (fb : List Nat) :
    setStyle st s = s ∧ fill r st s = s ∧ setContent env x y mainc combc st s = s ∧
    showScr env ws s = (s, []) ∧
    sync env ws s = ({ s with cx := -1, cy := -1 }, []) ∧
    setPaste p s = { s with paste := p } ∧
    showCursorOp cx cy s = { s with cursorx := cx, cursory := cy } ∧
    hideCursorOp s = { s with cursorx := -1, cursory := -1 } ∧
    registerRuneFallback r fb s =
      { s with fallback := (r, fb) :: s.fallback.filter (fun kv => !(kv.1 == r)) } := by
  refine ⟨?_, ?_, ?_, ?_, ?_, rfl, rfl, rfl, rfl⟩ <;>
    simp [setStyle, fill, setContent, showScr, sync, hf]

/-- C7 witness: the amended behaviour at the concrete finalised screen. -/
theorem c7_fini_behaviour_witness :
    setStyle styleInvalid finiScreen = finiScreen ∧
    showScr nullREnv (3, 3) finiScreen = (finiScreen, []) ∧
    setPaste true finiScreen = { finiScreen with paste := true } := by
  have h := c7_fini_behaviour nullREnv (3, 3) finiScreen rfl styleInvalid 97 0 0 97 []
    1 1 true [63]
  exact ⟨h.1, h.2.2.2.1, h.2.2.2.2.2.1⟩

/-! ## Clipboard errors -/

/-- C8 counterexample: the register check only looks at the first byte, so
the invalid register cz (not one of the valid registers c, p) is accepted
without an error. -/
theorem c8_counterexample :
    (getClipboard [99, 122]).2 = none ∧ [99, 122] ≠ [99] ∧ [99, 122] ≠ [112] := by
  refine ⟨rfl, by decide, by decide⟩

/-- C8 amended: GetClipboard and SetClipboard return an error exactly when
the register argument is empty or its first byte is neither c nor p; for an
accepted register SetClipboard always emits the OSC-52 clear and set
sequences carrying the full base64 text, and returns the truncation notice
exactly when the text is at least 74994 bytes long. -/
theorem c8_clipboard (text register : List Nat) :
    ((getClipboard register).2 ≠ none ↔
      register = [] ∨ (register.headD 0 ≠ 99 ∧ register.headD 0 ≠ 112)) ∧
    ((setClipboard text register).2 ≠ none ↔
      register = [] ∨ (register.headD 0 ≠ 99 ∧ register.headD 0 ≠ 112) ∨
        74994 ≤ text.length) ∧
    (register ≠ [] → (register.headD 0 = 99 ∨ register.headD 0 = 112) →
      (setClipboard text register).1 =
        pasteClearSeq (register.headD 0) ++
          pasteSetSeq (register.headD 0) (b64encode text) ∧
      ((setClipboard text register).2 = some ClipErr.truncated ↔
        74994 ≤ text.length)) := by
  unfold getClipboard setClipboard
  cases register with
  | nil => simp
  | cons r rest =>
      by_cases hr : r ≠ 99 ∧ r ≠ 112
      · by_cases htr : 74994 ≤ text.length <;> simp [hr, htr]
      · by_cases htr : 74994 ≤ text.length <;> simp [hr, htr]

/-- C8 witness: the emission clause at text hi and register c. -/
theorem c8_clipboard_witness :
    (setClipboard [104, 105] [99]).1 =
      pasteClearSeq 99 ++ pasteSetSeq 99 (b64encode [104, 105]) ∧
    ((setClipboard [104, 105] [99]).2 = some ClipErr.truncated ↔
      74994 ≤ ([104, 105] : List Nat).length) :=
  (c8_clipboard [104, 105] [99]).2.2 (by decide) (Or.inl rfl)

/-! ## Preservation lemmas for the renderer -/

theorem collapseRGB_fields (cap : Option (Nat → Nat → Nat → List Nat)) (tc : Bool)
    (s : TS) (c : Color) :
    (collapseRGB cap tc s c).1.acs = s.acs ∧
    (collapseRGB cap tc s c).1.fallback = s.fallback ∧
    (collapseRGB cap tc s c).1.w = s.w ∧ (collapseRGB cap tc s c).1.cx = s.cx := by
  unfold collapseRGB
  split <;> simp

theorem resolveColor_fields (env : REnv) (s : TS) (c : Color) :
    (resolveColor env s c).1.acs = s.acs ∧
    (resolveColor env s c).1.fallback = s.fallback ∧
    (resolveColor env s c).1.w = s.w ∧ (resolveColor env s c).1.cx = s.cx := by
  unfold resolveColor
  split_ifs
  · split <;> simp
  · simp

theorem sendFgSingle_fields (env : REnv) (s : TS) (fg bg : Color) :
    (sendFgSingle env s fg bg).acs = s.acs ∧
    (sendFgSingle env s fg bg).fallback = s.fallback ∧
    (sendFgSingle env s fg bg).w = s.w ∧ (sendFgSingle env s fg bg).cx = s.cx := by
  unfold sendFgSingle
  dsimp only
  (repeat' split) <;> simp

theorem sendFgBg_fields (env : REnv) (s : TS) (fg bg : Color) :
    (sendFgBg env s fg bg).acs = s.acs ∧
    (sendFgBg env s fg bg).fallback = s.fallback ∧
    (sendFgBg env s fg bg).w = s.w ∧ (sendFgBg env s fg bg).cx = s.cx := by
  unfold sendFgBg
  dsimp only
  split_ifs <;> (repeat' split) <;>
    simp [collapseRGB_fields, resolveColor_fields, sendFgSingle_fields]

theorem emitStyle_fields (env : REnv) (s : TS) (st : Style) :
    (emitStyle env s st).acs = s.acs ∧
    (emitStyle env s st).fallback = s.fallback ∧
    (emitStyle env s st).w = s.w ∧ (emitStyle env s st).cx = s.cx := by
  unfold emitStyle
  dsimp only
  refine ⟨?_, ?_, ?_, ?_⟩ <;>
    simp [apply_ite TS.acs, apply_ite TS.fallback, apply_ite TS.w, apply_ite TS.cx,
      sendFgBg_fields]

theorem drawStyle_fields (env : REnv) (s : TS) (st0 : Style) :
    (drawStyle env s st0).acs = s.acs ∧
    (drawStyle env s st0).fallback = s.fallback ∧
    (drawStyle env s st0).w = s.w ∧ (drawStyle env s st0).cx = s.cx := by
  unfold drawStyle
  dsimp only
  split_ifs <;> simp [emitStyle_fields]

theorem encodeRune_congr (env : REnv) {s1 s2 : TS} (hacs : s1.acs = s2.acs)
    (hfb : s1.fallback = s2.fallback) (r : Nat) (buf : List Nat) :
    encodeRune env s1 r buf = encodeRune env s2 r buf := by
  unfold encodeRune
  rw [hacs, hfb]

theorem cellGlyph_congr (env : REnv) {s1 s2 : TS} (hacs : s1.acs = s2.acs)
    (hfb : s1.fallback = s2.fallback) (mainc : Nat) (combc : List Nat) :
    cellGlyph env s1 mainc combc = cellGlyph env s2 mainc combc := by
  unfold cellGlyph
  simp only [encodeRune_congr env hacs hfb]

theorem drawGoto_cx (env : REnv) (s : TS) (x y : Nat) :
    (drawGoto env s x y).cx = (x : Int) := by
  unfold drawGoto
  split_ifs with h
  · rfl
  · push_neg at h
    exact h.2

theorem drawGoto_fields (env : REnv) (s : TS) (x y : Nat) :
    (drawGoto env s x y).acs = s.acs ∧ (drawGoto env s x y).fallback = s.fallback ∧
    (drawGoto env s x y).w = s.w := by
  unfold drawGoto
  split_ifs <;> simp

/-- C9 counterexample: a dirty width-2 cell at the last column of a 1-column
screen whose rune the encoder cannot represent.  The spill branch emits the
single space, but the cached cursor column ends at 0, not x + 1 = 1: the
wide-question-mark fallback invalidated the cached column to -1 first, and
the write then advanced it by 1. -/
theorem c9_counterexample :
    c9Screen.cells.dirty 0 0 = true ∧
    (c9Screen.cells.getContent 0 0).2.2.2 = 2 ∧
    ((0 : Int) > (c9Screen.w : Int) - 2) ∧
    (drawCell nullREnv c9Screen 0 0).1.out = [32] ∧
    (drawCell nullREnv c9Screen 0 0).1.cx = 0 ∧
    ((0 : Int) ≠ 0 + 1) := by
  refine ⟨rfl, rfl, by decide, rfl, rfl, by decide⟩

/-- C9 amended: during a draw, a dirty cell at column x whose normalised
glyph width w satisfies x > W − w is emitted as a single space of width 1;
the cached cursor column ends at x + 1, except when the glyph had width 2
and its encoding collapsed to a question mark, in which case the cached
column was invalidated first and ends at 0. -/
theorem c9_margin_clip (env : REnv) (s : TS) (x y : Nat) (mainc : Nat) (combc : List Nat)
    (st : Style) (w0 : Nat)
    (hg : s.cells.getContent x y = (mainc, combc, st, w0))
    (hd : s.cells.dirty x y = true)
    (hspill : (x : Int) > (s.w : Int) - ((if w0 < 1 then 1 else w0 : Nat) : Int)) :
    (∃ pre, (drawCell env s x y).1.out = pre ++ [32]) ∧
    (drawCell env s x y).2 = 1 ∧
    (drawCell env s x y).1.cx =
      (if 1 < (if w0 < 1 then 1 else w0) ∧ cellGlyph env s mainc combc = [63]
        then 0 else (x : Int) + 1) := by
  have hgf := drawGoto_fields env s x y
  have hgcx := drawGoto_cx env s x y
  have hsf := drawStyle_fields env (drawGoto env s x y) st
  have hacs : (drawStyle env (drawGoto env s x y) st).acs = s.acs := hsf.1.trans hgf.1
  have hfb : (drawStyle env (drawGoto env s x y) st).fallback = s.fallback :=
    hsf.2.1.trans hgf.2.1
  have hw : (drawStyle env (drawGoto env s x y) st).w = s.w := hsf.2.2.1.trans hgf.2.2
  have hcx : (drawStyle env (drawGoto env s x y) st).cx = (x : Int) := hsf.2.2.2.trans hgcx
  have hglyph : cellGlyph env (drawStyle env (drawGoto env s x y) st) mainc combc =
      cellGlyph env s mainc combc := cellGlyph_congr env hacs hfb mainc combc
  unfold drawCell
  rw [hg]
  dsimp only
  rw [hd]
  simp only [Bool.not_true, Bool.false_eq_true, if_false]
  rw [hglyph]
  generalize hS : drawStyle env (drawGoto env s x y) st = S
  rw [hS] at hw hcx
  by_cases hq : 1 < (if w0 < 1 then 1 else w0) ∧ cellGlyph env s mainc combc = [63]
  · simp only [if_pos hq]
    rw [hw]
    simp only [if_pos hspill]
    simp only [show ¬ (1 < 1) from by omega, if_false]
    refine ⟨⟨S.out, by simp⟩, by simp, ?_⟩
    norm_num
  · simp only [if_neg hq]
    rw [hw]
    simp only [if_pos hspill]
    simp only [show ¬ (1 < 1) from by omega, if_false]
    refine ⟨⟨S.out, by simp⟩, by simp, ?_⟩
    simp only [if_neg hq, hcx]
    norm_num

/-- C9 witness: the amended theorem at the unrepresentable wide cell of the
1 × 1 screen. -/
theorem c9_margin_clip_witness :
    (∃ pre, (drawCell nullREnv c9Screen 0 0).1.out = pre ++ [32]) ∧
    (drawCell nullREnv c9Screen 0 0).2 = 1 ∧
    (drawCell nullREnv c9Screen 0 0).1.cx =
      (if 1 < (if (2 : Nat) < 1 then 1 else 2) ∧
          cellGlyph nullREnv c9Screen 9731 [] = [63] then 0 else (0 : Int) + 1) :=
  c9_margin_clip nullREnv c9Screen 0 0 9731 [] styleDefault 2 rfl rfl (by decide)

end Tcell
